import Mathlib

/-!
# gold/target-reloc.h : generic relocation scanning and application

A shallow embedding of `scan_relocs` and `relocate_section` (and of the
`Reloc_types` selector they use).  Raw buffers are byte memories addressed by
an offset from the pointer the function receives; the target specific
strategies (`Scan`, `Relocate`) are recorded as a trace of the calls made to
them; the two ways of leaving the function other than by returning
(`assert`, `gold_exit(false)`) are explicit outcomes.

Host integer model: `unsigned int` is 32 bits wide, `off_t` and `size_t` are
64 bits wide.
-/

namespace gold

/-- Raw bytes behind a pointer: the byte found at each offset from it. -/
abbrev Mem := Nat → Nat

namespace elfcpp

/-- Modelled from the spec: `elfcpp.h` is not among the sources; the special
section index "undefined" of the ELF format. -/
def SHN_UNDEF : Nat := 0

/-- Modelled from the spec: `elfcpp.h` is not among the sources; the first
reserved (pseudo) section index of the ELF format. -/
def SHN_LORESERVE : Nat := 0xff00

/-- Modelled from the spec: `elfcpp.h` is not among the sources; the weak
symbol binding of the ELF format. -/
def STB_WEAK : Nat := 2

/-- The two section types `Reloc_types` is specialised for. -/
inductive Sh_type where
  | SHT_REL
  | SHT_RELA
  deriving DecidableEq, Repr

/-- The two address widths `Elf_types<size>` exists for. -/
inductive Size where
  | s32
  | s64
  deriving DecidableEq, Repr

/-- The template argument `size` as a number of bits. -/
def Size.bits : Size → Nat
  | .s32 => 32
  | .s64 => 64

/-- Bytes in an address (or in the info word of a relocation). -/
def Size.bytes : Size → Nat
  | .s32 => 4
  | .s64 => 8

/-- Modelled from the spec: `Elf_sizes<size>::rel_size` of the absent
`elfcpp.h`, the size of the standard implicit-addend record (offset, info). -/
def rel_size : Size → Nat
  | .s32 => 8
  | .s64 => 16

/-- Modelled from the spec: `Elf_sizes<size>::rela_size` of the absent
`elfcpp.h`, the size of the standard explicit-addend record (offset, info,
addend). -/
def rela_size : Size → Nat
  | .s32 => 12
  | .s64 => 24

/-- Modelled from the spec: `Elf_sizes<size>::sym_size` of the absent
`elfcpp.h`, the size of a standard symbol table entry. -/
def sym_size : Size → Nat
  | .s32 => 16
  | .s64 => 24

/-- Modelled from the spec: `elf_r_sym<size>` of the absent `elfcpp.h`; the
symbol index packed in the info word, returned as an `unsigned int`. -/
def elf_r_sym : Size → Nat → Nat
  | .s32, r_info => (r_info / 2 ^ 8) % 2 ^ 32
  | .s64, r_info => (r_info / 2 ^ 32) % 2 ^ 32

/-- Modelled from the spec: `elf_r_type<size>` of the absent `elfcpp.h`; the
relocation type packed in the info word, returned as an `unsigned int`. -/
def elf_r_type : Size → Nat → Nat
  | .s32, r_info => r_info % 2 ^ 8
  | .s64, r_info => r_info % 2 ^ 32

/-- Modelled from the spec: the width- and endian-aware read of `n` bytes at
offset `p` (the `Swap<...>::readval` of the absent `elfcpp.h`). -/
def readval (big_endian : Bool) (m : Mem) (p : Nat) : Nat → Nat
  | 0 => 0
  | n + 1 =>
    if big_endian then (m p % 256) * 256 ^ n + readval big_endian m (p + 1) n
    else m p % 256 + 256 * readval big_endian m (p + 1) n

/-- Modelled from the spec: `Rel::get_r_offset` / `Rela::get_r_offset`, the
first field of both record layouts. -/
def get_r_offset (size : Size) (big_endian : Bool) (m : Mem) (reloc : Nat) : Nat :=
  readval big_endian m reloc size.bytes

/-- Modelled from the spec: `Rel::get_r_info` / `Rela::get_r_info`, the second
field of both record layouts. -/
def get_r_info (size : Size) (big_endian : Bool) (m : Mem) (reloc : Nat) : Nat :=
  readval big_endian m (reloc + size.bytes) size.bytes

/-- Modelled from the spec: offset of the 16-bit field `st_shndx` inside a
standard symbol table entry. -/
def st_shndx_offset : Size → Nat
  | .s32 => 14
  | .s64 => 6

/-- Modelled from the spec: `Sym::get_st_shndx` of the absent `elfcpp.h`. -/
def get_st_shndx (size : Size) (big_endian : Bool) (m : Mem) (sym : Nat) : Nat :=
  readval big_endian m (sym + st_shndx_offset size) 2

end elfcpp

/-- Width of the host type `unsigned int`. -/
def UINT_BITS : Nat := 32

/-- Width of the host types `off_t` and `size_t`. -/
def OFF_T_BITS : Nat := 64

/-- Conversion of an unsigned value to `off_t`, as in
`off_t offset = reloc.get_r_offset()`. -/
def to_off_t (x : Nat) : Int :=
  if x % 2 ^ OFF_T_BITS < 2 ^ (OFF_T_BITS - 1) then ((x % 2 ^ OFF_T_BITS : Nat) : Int)
  else ((x % 2 ^ OFF_T_BITS : Nat) : Int) - ((2 ^ OFF_T_BITS : Nat) : Int)

/-- Conversion `static_cast<size_t>(offset)`. -/
def to_size_t (x : Int) : Nat :=
  (x % ((2 ^ OFF_T_BITS : Nat) : Int)).toNat

/-- Conversion of `view_address + offset` to `Elf_Addr` (an unsigned integer of
`size` bits). -/
def to_Elf_Addr (size : elfcpp.Size) (x : Int) : Nat :=
  (x % ((2 ^ size.bits : Nat) : Int)).toNat

/-- The template arguments `size`, `big_endian`, `sh_type` shared by
`Reloc_types`, `scan_relocs` and `relocate_section`. -/
structure Params where
  size : elfcpp.Size
  big_endian : Bool
  sh_type : elfcpp.Sh_type
  deriving DecidableEq, Repr

/-- The member `Reloc_types<sh_type, size, big_endian>::reloc_size`. -/
def Reloc_types.reloc_size (P : Params) : Nat :=
  match P.sh_type with
  | .SHT_REL => elfcpp.rel_size P.size
  | .SHT_RELA => elfcpp.rela_size P.size

/-- What the code asks of a symbol handle and of the symbol table
(`symtab.h` is not among the sources): the interface of `Symbol`,
`Sized_symbol` and `Symbol_table::resolve_forwards`. -/
structure Symbol_table (Sym : Type) where
  is_forwarder : Sym → Bool
  resolve_forwards : Sym → Sym
  is_undefined : Sym → Bool
  binding : Sym → Nat
  value : Sym → Nat
  name : Sym → String

/-- The two assertions of the source. -/
inductive Assertion where
  | plocal_syms_not_null
  | gsym_not_null
  deriving DecidableEq, Repr

/-! ## scan_relocs -/

/-- Arguments of `scan_relocs` that the generic code reads.  `prelocs` and
`plocal_syms` are the bytes behind the pointers (`none` is the null pointer),
`global_syms` the array of symbol pointers (`none` is a null entry). -/
structure Scan_args (Sym : Type) where
  symtab : Symbol_table Sym
  is_section_included : Nat → Bool
  prelocs : Mem
  reloc_count : Nat
  local_count : Nat
  plocal_syms : Option Mem
  global_syms : Nat → Option Sym

/-- A call made on the `Scan` object: `scan.local(..., reloc, r_type, lsym)` or
`scan.global(..., reloc, r_type, gsym)`.  `reloc` is the record view (its
offset from the start of the relocation data), `lsym` the symbol view (its
offset from `plocal_syms`). -/
inductive Scan_call (Sym : Type) where
  | local_ (reloc : Nat) (r_type : Nat) (lsym : Nat)
  | global (reloc : Nat) (r_type : Nat) (gsym : Sym)
  deriving DecidableEq, Repr

/-- How one pass of a loop body ended, and what it did. -/
structure Scan_step (Sym : Type) where
  calls : List (Scan_call Sym)
  resolves : List Sym
  failed : Option Assertion

/-- How `scan_relocs` ended. -/
inductive Scan_outcome where
  | returned
  | assert_failed (i : Nat) (a : Assertion)
  deriving DecidableEq, Repr

/-- What a run of `scan_relocs` did: the calls on the `Scan` object and the
calls of `symtab->resolve_forwards`, each with the loop counter `i` of the
pass that made it, and how the run ended. -/
structure Scan_result (Sym : Type) where
  calls : List (Nat × Scan_call Sym)
  resolves : List (Nat × Sym)
  outcome : Scan_outcome

/-- The symbol view built by `lsym(plocal_syms + r_sym * sym_size)`: the
product is an `unsigned int`. -/
def lsym_offset (size : elfcpp.Size) (r_sym : Nat) : Nat :=
  (r_sym * elfcpp.sym_size size) % 2 ^ UINT_BITS

/-- The test that guards `continue` in `scan_relocs`. -/
def in_discarded_section (is_section_included : Nat → Bool) (shndx : Nat) : Bool :=
  decide (shndx < elfcpp.SHN_LORESERVE) && (shndx != elfcpp.SHN_UNDEF)
    && !is_section_included shndx

/-- Body of the loop of `scan_relocs` for the record view at `reloc`. -/
def scan_reloc {Sym : Type} (P : Params) (A : Scan_args Sym) (reloc : Nat) : Scan_step Sym :=
  let r_info := elfcpp.get_r_info P.size P.big_endian A.prelocs reloc
  let r_sym := elfcpp.elf_r_sym P.size r_info
  let r_type := elfcpp.elf_r_type P.size r_info
  if r_sym < A.local_count then
    match A.plocal_syms with
    | none => ⟨[], [], some .plocal_syms_not_null⟩
    | some syms =>
      let lsym := lsym_offset P.size r_sym
      let shndx := elfcpp.get_st_shndx P.size P.big_endian syms lsym
      if in_discarded_section A.is_section_included shndx then
        ⟨[], [], none⟩
      else
        ⟨[.local_ reloc r_type lsym], [], none⟩
  else
    match A.global_syms (r_sym - A.local_count) with
    | none => ⟨[], [], some .gsym_not_null⟩
    | some gsym =>
      if A.symtab.is_forwarder gsym then
        ⟨[.global reloc r_type (A.symtab.resolve_forwards gsym)], [gsym], none⟩
      else
        ⟨[.global reloc r_type gsym], [], none⟩

/-- The loop of `scan_relocs`: `n` records left, loop counter `i`, cursor
`prelocs`. -/
def scan_relocs_loop {Sym : Type} (P : Params) (A : Scan_args Sym) :
    Nat → Nat → Nat → Scan_result Sym
  | 0, _, _ => ⟨[], [], .returned⟩
  | n + 1, i, prelocs =>
    let step := scan_reloc P A prelocs
    match step.failed with
    | some a => ⟨step.calls.map (Prod.mk i), step.resolves.map (Prod.mk i), .assert_failed i a⟩
    | none =>
      let rest := scan_relocs_loop P A n (i + 1) (prelocs + Reloc_types.reloc_size P)
      ⟨step.calls.map (Prod.mk i) ++ rest.calls, step.resolves.map (Prod.mk i) ++ rest.resolves,
        rest.outcome⟩

/-- The function `scan_relocs`. -/
def scan_relocs {Sym : Type} (P : Params) (A : Scan_args Sym) : Scan_result Sym :=
  scan_relocs_loop P A A.reloc_count 0 0

/-! ## relocate_section -/

/-- The fields of `Relocate_info` that the generic code reads. -/
structure Relocate_info (Sym : Type) where
  symtab : Symbol_table Sym
  local_symbol_count : Nat
  values : Nat → Nat
  symbols : Nat → Option Sym

/-- The arguments of one call `relocate.relocate(relinfo, target, i, reloc,
r_type, sym, value, view + offset, view_address + offset, view_size)`.
`view` is the pointer `view + offset` as an offset from the start of the
section data. -/
structure Relocate_call (Sym : Type) where
  i : Nat
  reloc : Nat
  r_type : Nat
  sym : Option Sym
  value : Nat
  view : Int
  address : Nat
  view_size : Int
  deriving DecidableEq, Repr

/-- The target specific `Relocate::relocate`: it may change its own state and
the section data (both in `σ`) and answers whether the record is to be
checked. -/
abbrev Relocate (σ Sym : Type) := σ → Relocate_call Sym → Bool × σ

/-- The two messages `relocate_section` prints, with the arguments given to
`relinfo->location`. -/
inductive Diagnostic where
  | bad_offset (relnum : Nat) (reloffset : Int) (shown : Nat)
  | undefined_reference (relnum : Nat) (reloffset : Int) (name : String)
  deriving DecidableEq, Repr

/-- How `relocate_section` ended. -/
inductive Relocate_outcome where
  | returned
  | gold_exit_false (i : Nat)
  | assert_failed (i : Nat)
  deriving DecidableEq, Repr

/-- What one pass of the loop body of `relocate_section` did; `stop` tells
whether the pass left the function. -/
structure Relocate_step (σ Sym : Type) where
  calls : List (Relocate_call Sym × Bool)
  resolves : List Sym
  diags : List Diagnostic
  state : σ
  stop : Option Relocate_outcome

/-- What a run of `relocate_section` did: the calls of `relocate.relocate`
with their answers, the calls of `resolve_forwards` (with the loop counter),
the messages printed, the final state of the target and section data, and how
the run ended. -/
structure Relocate_result (σ Sym : Type) where
  calls : List (Relocate_call Sym × Bool)
  resolves : List (Nat × Sym)
  diags : List Diagnostic
  state : σ
  outcome : Relocate_outcome

/-- The condition of the bounds check `offset < 0 || offset >= view_size`. -/
def bad_offset (offset view_size : Int) : Bool :=
  decide (offset < 0) || decide (offset ≥ view_size)

/-- The undefined-symbol report that ends the loop body: the message printed
when `sym != NULL && sym->is_undefined() && sym->binding() != STB_WEAK`. -/
def undefined_report {Sym : Type} (T : Symbol_table Sym) (i : Nat) (offset : Int)
    (sym : Option Sym) : List Diagnostic :=
  match sym with
  | none => []
  | some s =>
    if T.is_undefined s && (T.binding s != elfcpp.STB_WEAK) then
      [.undefined_reference i offset (T.name s)]
    else []

/-- The part of the loop body of `relocate_section` that follows the call of
`relocate.relocate`, which answered `ret` and left the state `s`. -/
def relocate_checks {σ Sym : Type} (relinfo : Relocate_info Sym) (view_size : Int)
    (i : Nat) (offset : Int) (c : Relocate_call Sym) (resolves : List Sym)
    (ret : Bool) (s : σ) : Relocate_step σ Sym :=
  if !ret then
    ⟨[(c, ret)], resolves, [], s, none⟩
  else if bad_offset offset view_size then
    ⟨[(c, ret)], resolves, [.bad_offset i offset (to_size_t offset)], s,
      some (.gold_exit_false i)⟩
  else
    ⟨[(c, ret)], resolves, undefined_report relinfo.symtab i offset c.sym, s, none⟩

/-- The first part of the loop body of `relocate_section` (decoding, symbol
and value): the arguments of the coming call of `relocate.relocate` and the
handles given to `resolve_forwards`, or `none` when `assert(gsym != NULL)`
fails. -/
def relocate_operands {Sym : Type} (P : Params) (relinfo : Relocate_info Sym)
    (prelocs : Mem) (view_address : Nat) (view_size : Int) (i reloc : Nat) :
    Option (Relocate_call Sym × List Sym) :=
  let offset := to_off_t (elfcpp.get_r_offset P.size P.big_endian prelocs reloc)
  let r_info := elfcpp.get_r_info P.size P.big_endian prelocs reloc
  let r_sym := elfcpp.elf_r_sym P.size r_info
  let r_type := elfcpp.elf_r_type P.size r_info
  let local_count := relinfo.local_symbol_count
  let address := to_Elf_Addr P.size ((view_address : Int) + offset)
  if r_sym < local_count then
    some (⟨i, reloc, r_type, none, relinfo.values r_sym, offset, address, view_size⟩, [])
  else
    match relinfo.symbols (r_sym - local_count) with
    | none => none
    | some gsym =>
      if relinfo.symtab.is_forwarder gsym then
        let sym := relinfo.symtab.resolve_forwards gsym
        some (⟨i, reloc, r_type, some sym, relinfo.symtab.value sym, offset, address,
          view_size⟩, [gsym])
      else
        some (⟨i, reloc, r_type, some gsym, relinfo.symtab.value gsym, offset, address,
          view_size⟩, [])

/-- Body of the loop of `relocate_section` for loop counter `i` and record
view `reloc`, entered with the target and section data in state `s`. -/
def relocate_reloc {σ Sym : Type} (P : Params) (relinfo : Relocate_info Sym)
    (relocate : Relocate σ Sym) (prelocs : Mem) (view_address : Nat) (view_size : Int)
    (i reloc : Nat) (s : σ) : Relocate_step σ Sym :=
  match relocate_operands P relinfo prelocs view_address view_size i reloc with
  | none => ⟨[], [], [], s, some (.assert_failed i)⟩
  | some (c, resolves) =>
    let r := relocate s c
    relocate_checks relinfo view_size i c.view c resolves r.1 r.2

/-- The loop of `relocate_section`: `n` records left, loop counter `i`, cursor
`reloc`, state `s` of the target and section data. -/
def relocate_section_loop {σ Sym : Type} (P : Params) (relinfo : Relocate_info Sym)
    (relocate : Relocate σ Sym) (prelocs : Mem) (view_address : Nat) (view_size : Int) :
    Nat → Nat → Nat → σ → Relocate_result σ Sym
  | 0, _, _, s => ⟨[], [], [], s, .returned⟩
  | n + 1, i, reloc, s =>
    let step := relocate_reloc P relinfo relocate prelocs view_address view_size i reloc s
    match step.stop with
    | some o => ⟨step.calls, step.resolves.map (Prod.mk i), step.diags, step.state, o⟩
    | none =>
      let rest := relocate_section_loop P relinfo relocate prelocs view_address view_size
        n (i + 1) (reloc + Reloc_types.reloc_size P) step.state
      ⟨step.calls ++ rest.calls, step.resolves.map (Prod.mk i) ++ rest.resolves,
        step.diags ++ rest.diags, rest.state, rest.outcome⟩

/-- The function `relocate_section`, started with the target and section data
in state `s`. -/
def relocate_section {σ Sym : Type} (P : Params) (relinfo : Relocate_info Sym)
    (relocate : Relocate σ Sym) (prelocs : Mem) (reloc_count : Nat) (view_address : Nat)
    (view_size : Int) (s : σ) : Relocate_result σ Sym :=
  relocate_section_loop P relinfo relocate prelocs view_address view_size reloc_count 0 0 s

/-! ## The records of a section, by position -/

/-- The view of record `i`: `prelocs + i * reloc_size`. -/
def reloc_at (P : Params) (i : Nat) : Nat := i * Reloc_types.reloc_size P

/-- The info word of record `i`. -/
def r_info_at (P : Params) (prelocs : Mem) (i : Nat) : Nat :=
  elfcpp.get_r_info P.size P.big_endian prelocs (reloc_at P i)

/-- The symbol index `r_sym` decoded from record `i`. -/
def r_sym_at (P : Params) (prelocs : Mem) (i : Nat) : Nat :=
  elfcpp.elf_r_sym P.size (r_info_at P prelocs i)

/-- The relocation type `r_type` decoded from record `i`. -/
def r_type_at (P : Params) (prelocs : Mem) (i : Nat) : Nat :=
  elfcpp.elf_r_type P.size (r_info_at P prelocs i)

/-- The `off_t offset` decoded from record `i`. -/
def offset_at (P : Params) (prelocs : Mem) (i : Nat) : Int :=
  to_off_t (elfcpp.get_r_offset P.size P.big_endian prelocs (reloc_at P i))

/-- The handle left in `gsym` after the forwarder test. -/
def resolved {Sym : Type} (T : Symbol_table Sym) (gsym : Sym) : Sym :=
  if T.is_forwarder gsym then T.resolve_forwards gsym else gsym

/-- Record `i` of the scan trips one of the two assertions of `scan_relocs`: it
is local and `plocal_syms` is null, or it is global and its entry of
`global_syms` is null. -/
def scan_asserts {Sym : Type} (P : Params) (A : Scan_args Sym) (i : Nat) : Prop :=
  (r_sym_at P A.prelocs i < A.local_count ∧ A.plocal_syms = none) ∨
  (A.local_count ≤ r_sym_at P A.prelocs i ∧
    A.global_syms (r_sym_at P A.prelocs i - A.local_count) = none)

/-- Record `i` is global for `relocate_section` and its entry of
`relinfo->symbols` is null. -/
def relocate_asserts {Sym : Type} (P : Params) (relinfo : Relocate_info Sym) (prelocs : Mem)
    (i : Nat) : Prop :=
  relinfo.local_symbol_count ≤ r_sym_at P prelocs i ∧
    relinfo.symbols (r_sym_at P prelocs i - relinfo.local_symbol_count) = none

/-- Whether record `i` of the scan trips an assertion can be computed. -/
instance scan_asserts_decidable {Sym : Type} (P : Params) (A : Scan_args Sym) (i : Nat) :
    Decidable (scan_asserts P A i) :=
  decidable_of_iff
    (((decide (r_sym_at P A.prelocs i < A.local_count) && A.plocal_syms.isNone) ||
      (decide (A.local_count ≤ r_sym_at P A.prelocs i) &&
        (A.global_syms (r_sym_at P A.prelocs i - A.local_count)).isNone)) = true)
    (by simp [scan_asserts, Option.isNone_iff_eq_none])

/-- Whether record `i` trips the assertion of `relocate_section` can be
computed. -/
instance relocate_asserts_decidable {Sym : Type} (P : Params) (relinfo : Relocate_info Sym)
    (prelocs : Mem) (i : Nat) : Decidable (relocate_asserts P relinfo prelocs i) :=
  decidable_of_iff
    ((decide (relinfo.local_symbol_count ≤ r_sym_at P prelocs i) &&
      (relinfo.symbols (r_sym_at P prelocs i - relinfo.local_symbol_count)).isNone) = true)
    (by simp [relocate_asserts, Option.isNone_iff_eq_none])

/-- The loop counters of the calls made on the `Scan` object, in order. -/
def scan_positions {Sym : Type} (R : Scan_result Sym) : List Nat := R.calls.map Prod.fst

/-- The record numbers given to `relocate.relocate`, in order. -/
def relocate_positions {σ Sym : Type} (R : Relocate_result σ Sym) : List Nat :=
  R.calls.map (fun x => x.1.i)

/-- The record number a message is about. -/
def Diagnostic.relnum : Diagnostic → Nat
  | .bad_offset relnum _ _ => relnum
  | .undefined_reference relnum _ _ => relnum

/-- Whether a message is the undefined-reference report. -/
def Diagnostic.is_undefined_reference : Diagnostic → Bool
  | .bad_offset _ _ _ => false
  | .undefined_reference _ _ _ => true

/-- The calls on the `Scan` object that the trace holds for record `k`. -/
def scan_calls_for {Sym : Type} (R : Scan_result Sym) (k : Nat) : List (Scan_call Sym) :=
  (R.calls.filter (fun x => decide (x.1 = k))).map Prod.snd

/-- The section index `shndx` that `scan_relocs` reads for record `i` from the
local symbol table `syms`. -/
def shndx_at (P : Params) (prelocs : Mem) (syms : Mem) (i : Nat) : Nat :=
  elfcpp.get_st_shndx P.size P.big_endian syms (lsym_offset P.size (r_sym_at P prelocs i))

/-- The calls of `relocate.relocate` that the trace holds for record `k`. -/
def relocate_calls_for {σ Sym : Type} (R : Relocate_result σ Sym) (k : Nat) :
    List (Relocate_call Sym × Bool) :=
  R.calls.filter (fun x => decide (x.1.i = k))

/-- The messages that the trace holds for record `k`. -/
def diags_for {σ Sym : Type} (R : Relocate_result σ Sym) (k : Nat) : List Diagnostic :=
  R.diags.filter (fun d => decide (d.relnum = k))

/-- The record view given in a call on the `Scan` object. -/
def Scan_call.reloc {Sym : Type} : Scan_call Sym → Nat
  | .local_ reloc _ _ => reloc
  | .global reloc _ _ => reloc

/-- The answers a target gives when it is handed the calls `cs` one after the
other, starting in state `s`. -/
def replay {σ Sym : Type} (relocate : Relocate σ Sym) :
    σ → List (Relocate_call Sym) → List (Relocate_call Sym × Bool)
  | _, [] => []
  | s, c :: cs => (c, (relocate s c).1) :: replay relocate (relocate s c).2 cs

/-- The relocation type given in a call on the `Scan` object. -/
def Scan_call.r_type {Sym : Type} : Scan_call Sym → Nat
  | .local_ _ r_type _ => r_type
  | .global _ r_type _ => r_type

/-- The section index stored in entry number `r_sym` of the local symbol table
`syms`, the entry at byte `r_sym * sym_size`. -/
def local_symbol_shndx (P : Params) (syms : Mem) (r_sym : Nat) : Nat :=
  elfcpp.get_st_shndx P.size P.big_endian syms (r_sym * elfcpp.sym_size P.size)

/-! ## The reads of the symbol arrays -/

/-- A read of one of the symbol arrays: of the local symbol table (the entry
asked for, and the bytes `first` up to `last`, exclusive, read from
`plocal_syms`), of the local values (`local_values[index]`), or of the global
symbol array (`global_syms[index]`, the index as the difference it is computed
from). -/
inductive Access where
  | local_sym (index : Nat) (first last : Nat)
  | local_value (index : Nat)
  | global_sym (index : Int)
  deriving DecidableEq, Repr

/-- A read is in range for a local symbol table of `local_count` entries of
`sym_size` bytes, a local value array of `local_count` entries and a global
symbol array of `global_count` entries. -/
def Access.in_range (sym_size local_count global_count : Nat) : Access → Prop
  | .local_sym index first last =>
    index < local_count ∧ first ≤ last ∧ last ≤ local_count * sym_size
  | .local_value index => index < local_count
  | .global_sym index => 0 ≤ index ∧ index < (global_count : Int)

/-- The reads made by one pass of the loop body of `scan_relocs`:
`lsym.get_st_shndx()` (once, and once more in the third test of the skip
condition) for a local record, `global_syms[r_sym - local_count]` for a global
one. -/
def scan_reloc_accesses {Sym : Type} (P : Params) (A : Scan_args Sym) (reloc : Nat) :
    List Access :=
  let r_info := elfcpp.get_r_info P.size P.big_endian A.prelocs reloc
  let r_sym := elfcpp.elf_r_sym P.size r_info
  if r_sym < A.local_count then
    match A.plocal_syms with
    | none => []
    | some syms =>
      let lsym := lsym_offset P.size r_sym
      let shndx := elfcpp.get_st_shndx P.size P.big_endian syms lsym
      let read : Access := .local_sym r_sym (lsym + elfcpp.st_shndx_offset P.size)
        (lsym + elfcpp.st_shndx_offset P.size + 2)
      if decide (shndx < elfcpp.SHN_LORESERVE) && (shndx != elfcpp.SHN_UNDEF) then
        [read, read]
      else
        [read]
  else
    [.global_sym ((r_sym : Int) - (A.local_count : Int))]

/-- The reads made by the loop of `scan_relocs`, each with the loop counter of
its pass. -/
def scan_relocs_accesses_loop {Sym : Type} (P : Params) (A : Scan_args Sym) :
    Nat → Nat → Nat → List (Nat × Access)
  | 0, _, _ => []
  | n + 1, i, prelocs =>
    (scan_reloc_accesses P A prelocs).map (Prod.mk i) ++
      (match (scan_reloc P A prelocs).failed with
      | some _ => []
      | none =>
        scan_relocs_accesses_loop P A n (i + 1) (prelocs + Reloc_types.reloc_size P))

/-- The reads of the symbol arrays made by `scan_relocs`. -/
def scan_relocs_accesses {Sym : Type} (P : Params) (A : Scan_args Sym) : List (Nat × Access) :=
  scan_relocs_accesses_loop P A A.reloc_count 0 0

/-- The reads made by one pass of the loop body of `relocate_section`:
`local_values[r_sym]` for a local record, `global_syms[r_sym - local_count]`
for a global one. -/
def relocate_reloc_accesses {Sym : Type} (P : Params) (relinfo : Relocate_info Sym)
    (prelocs : Mem) (reloc : Nat) : List Access :=
  let r_info := elfcpp.get_r_info P.size P.big_endian prelocs reloc
  let r_sym := elfcpp.elf_r_sym P.size r_info
  let local_count := relinfo.local_symbol_count
  if r_sym < local_count then
    [.local_value r_sym]
  else
    [.global_sym ((r_sym : Int) - (local_count : Int))]

/-- The reads made by the loop of `relocate_section`, each with the loop counter
of its pass. -/
def relocate_section_accesses_loop {σ Sym : Type} (P : Params) (relinfo : Relocate_info Sym)
    (relocate : Relocate σ Sym) (prelocs : Mem) (view_address : Nat) (view_size : Int) :
    Nat → Nat → Nat → σ → List (Nat × Access)
  | 0, _, _, _ => []
  | n + 1, i, reloc, s =>
    (relocate_reloc_accesses P relinfo prelocs reloc).map (Prod.mk i) ++
      (match (relocate_reloc P relinfo relocate prelocs view_address view_size i reloc
          s).stop with
      | some _ => []
      | none =>
        relocate_section_accesses_loop P relinfo relocate prelocs view_address view_size n
          (i + 1) (reloc + Reloc_types.reloc_size P)
          (relocate_reloc P relinfo relocate prelocs view_address view_size i reloc s).state)

/-- The reads of the symbol arrays made by `relocate_section`. -/
def relocate_section_accesses {σ Sym : Type} (P : Params) (relinfo : Relocate_info Sym)
    (relocate : Relocate σ Sym) (prelocs : Mem) (reloc_count : Nat) (view_address : Nat)
    (view_size : Int) (s : σ) : List (Nat × Access) :=
  relocate_section_accesses_loop P relinfo relocate prelocs view_address view_size reloc_count
    0 0 s

/-- Whether a read is in range can be computed. -/
instance Access.in_range_decidable (sym_size local_count global_count : Nat) (a : Access) :
    Decidable (a.in_range sym_size local_count global_count) := by
  cases a <;> unfold Access.in_range <;> exact inferInstance

/-! ## Example inputs -/

/-- Bytes of a buffer given as a list (zero beyond its end). -/
def mem_of (bytes : List Nat) : Mem := fun p => bytes.getD p 0

/-- A symbol table over handles that are numbers: handle 20 is a forwarder to
21, handles 10 and 11 are undefined, 11 is weak, the others have global
binding. -/
def ex_symtab : Symbol_table Nat where
  is_forwarder := fun h => h == 20
  resolve_forwards := fun h => if h == 20 then 21 else h
  is_undefined := fun h => h == 10 || h == 11
  binding := fun h => if h == 11 then 2 else 1
  value := fun h => 100 * h
  name := fun h => if h == 10 then "missing" else "other"

/-- The template arguments of the examples: 32-bit little-endian
implicit-addend records. -/
def ex_params : Params := ⟨.s32, false, .SHT_REL⟩

/-- A local symbol table of two entries: symbol 0 in section 1, symbol 1 in
section 2. -/
def ex_local_syms : Mem :=
  mem_of [0,0,0,0, 0,0,0,0, 0,0,0,0, 0,0, 1,0,
          0,0,0,0, 0,0,0,0, 0,0,0,0, 0,0, 2,0]

/-- Section 1 is kept, every other section is discarded. -/
def ex_included : Nat → Bool := fun shndx => shndx == 1

/-- The global symbol array: handles 10, 20 (a forwarder), 11, and a null
entry. -/
def ex_global_syms : Nat → Option Nat := fun k =>
  if k = 0 then some 10 else if k = 1 then some 20 else if k = 2 then some 11 else none

/-- Three records: (a) offset 0 against local symbol 0, type 1; (b) offset 4
against global symbol 0 (index 2), type 2; (c) offset 8 against local
symbol 1, type 1. -/
def ex_relocs : Mem :=
  mem_of [0,0,0,0, 1,0,0,0,
          4,0,0,0, 2,2,0,0,
          8,0,0,0, 1,1,0,0]

/-- The scan of the three records of `ex_relocs`. -/
def ex_scan_args : Scan_args Nat :=
  ⟨ex_symtab, ex_included, ex_relocs, 3, 2, some ex_local_syms, ex_global_syms⟩

/-- The relocation context of the same section: local values 0x1000 and 0 (the
symbol of the discarded section). -/
def ex_relinfo : Relocate_info Nat :=
  ⟨ex_symtab, 2, fun k => if k = 0 then 0x1000 else 0, ex_global_syms⟩

/-- A target that always answers true and notes the place it wrote to. -/
def ex_relocate : Relocate (List Int) Nat := fun s c => (true, s ++ [c.view])

/-- Two records: the first against global symbol 3 (index 5), whose entry in
`ex_global_syms` is null; the second, at offset 4, against local symbol 0. -/
def ex_relocs_null_first : Mem :=
  mem_of [0,0,0,0, 2,5,0,0,
          4,0,0,0, 1,0,0,0]

/-- The scan of the two records of `ex_relocs_null_first`. -/
def ex_scan_args_null_first : Scan_args Nat :=
  ⟨ex_symtab, ex_included, ex_relocs_null_first, 2, 2, some ex_local_syms, ex_global_syms⟩

/-- A scan of the single local record (a) of `ex_relocs` with a null
`plocal_syms` and a global symbol array without any null entry. -/
def ex_scan_args_no_local_table : Scan_args Nat :=
  ⟨ex_symtab, ex_included, ex_relocs, 1, 2, none, fun _ => some 10⟩

/-- Two records: the first, at offset 0, against local symbol 0; the second, at
offset 4, against global symbol 3 (index 5), whose entry is null. -/
def ex_relocs_null_second : Mem :=
  mem_of [0,0,0,0, 1,0,0,0,
          4,0,0,0, 2,5,0,0]

/-- Three records: offset 0 against local symbol 0; offset 32 against global
symbol 0 (index 2, the undefined handle 10); offset 8 against local
symbol 1. -/
def ex_relocs_bad_offset : Mem :=
  mem_of [0,0,0,0,  1,0,0,0,
          32,0,0,0, 2,2,0,0,
          8,0,0,0,  1,1,0,0]

/-- Four records against the global symbols 0 (handle 10, undefined), 1
(handle 20, a forwarder to 21), 2 (handle 11, undefined and weak), and against
local symbol 0, at offsets 0, 4, 8 and 12. -/
def ex_relocs_globals : Mem :=
  mem_of [0,0,0,0,  2,2,0,0,
          4,0,0,0,  2,3,0,0,
          8,0,0,0,  2,4,0,0,
          12,0,0,0, 1,0,0,0]

/-- The scan of the four records of `ex_relocs_globals`. -/
def ex_scan_args_globals : Scan_args Nat :=
  ⟨ex_symtab, ex_included, ex_relocs_globals, 4, 2, some ex_local_syms, ex_global_syms⟩

/-- A target that always answers false and writes nothing. -/
def ex_relocate_false : Relocate (List Int) Nat := fun s _ => (false, s)

/-- A symbol table in which handle 20 is a forwarder to 21, the forwarder
entry 20 counts as defined and its target 21 is undefined with global
binding. -/
def ex_symtab_target_undefined : Symbol_table Nat where
  is_forwarder := fun h => h == 20
  resolve_forwards := fun h => if h == 20 then 21 else h
  is_undefined := fun h => h == 21
  binding := fun _ => 1
  value := fun h => 100 * h
  name := fun h => if h == 20 then "stale" else "canonical"

/-- A symbol table in which handle 20 is a forwarder to 21, the forwarder
entry 20 is undefined with global binding and its target 21 is defined. -/
def ex_symtab_forwarder_undefined : Symbol_table Nat where
  is_forwarder := fun h => h == 20
  resolve_forwards := fun h => if h == 20 then 21 else h
  is_undefined := fun h => h == 20
  binding := fun _ => 1
  value := fun h => 100 * h
  name := fun h => if h == 20 then "stale" else "canonical"

/-- The relocation context of `ex_relinfo` over the symbol table
`ex_symtab_target_undefined`. -/
def ex_relinfo_target_undefined : Relocate_info Nat :=
  ⟨ex_symtab_target_undefined, 2, fun k => if k = 0 then 0x1000 else 0, ex_global_syms⟩

/-- The relocation context of `ex_relinfo` over the symbol table
`ex_symtab_forwarder_undefined`. -/
def ex_relinfo_forwarder_undefined : Relocate_info Nat :=
  ⟨ex_symtab_forwarder_undefined, 2, fun k => if k = 0 then 0x1000 else 0, ex_global_syms⟩

/-- The template arguments of the 64-bit example: 64-bit little-endian
implicit-addend records. -/
def ex_params64 : Params := ⟨.s64, false, .SHT_REL⟩

/-- One 64-bit record: offset 0, type 1, against symbol `2 ^ 29`
(`r_info = 2 ^ 61 + 1`). -/
def ex_relocs_wrap : Mem :=
  mem_of [0,0,0,0, 0,0,0,0,
          1,0,0,0, 0,0,0,0x20]

/-- A 64-bit local symbol table of `2 ^ 29 + 1` entries of 24 bytes: symbol 0
lies in section 1, symbol `2 ^ 29` (the entry at byte `2 ^ 29 * 24`) in
section 2, every other symbol in section 0. -/
def ex_local_syms_wrap : Mem := fun p =>
  if p = 6 then 1 else if p = 2 ^ 29 * 24 + 6 then 2 else 0

/-- The scan of the record of `ex_relocs_wrap` in an object with `2 ^ 29 + 1`
local symbols. -/
def ex_scan_args_wrap : Scan_args Nat :=
  ⟨ex_symtab, ex_included, ex_relocs_wrap, 1, 2 ^ 29 + 1, some ex_local_syms_wrap,
    ex_global_syms⟩

/-- Two records, both against local symbols (0 and 1), at offsets 0 and 4. -/
def ex_relocs_locals : Mem :=
  mem_of [0,0,0,0, 1,0,0,0,
          4,0,0,0, 1,1,0,0]

/-! ## Lists of calls in increasing order of position -/

/-- In a list whose keys strictly increase, at most one element has a given
key. -/
theorem filter_key_length_le_one {α : Type} (f : α → Nat) (k : Nat) :
    ∀ (l : List α), (l.map f).Pairwise (· < ·) →
      (l.filter (fun x => decide (f x = k))).length ≤ 1 := by
  intro l
  induction l with
  | nil => intro _; simp
  | cons a l ih =>
    intro h
    simp only [List.map_cons, List.pairwise_cons] at h
    by_cases hak : f a = k
    · have : l.filter (fun x => decide (f x = k)) = [] := by
        rw [List.filter_eq_nil_iff]; intro x hx
        have := h.1 (f x) (List.mem_map.mpr ⟨x, hx, rfl⟩)
        simp; omega
      simp [List.filter_cons, hak, this]
    · simp only [List.filter_cons, hak, decide_False, Bool.false_eq_true, if_false]
      exact ih h.2

/-- Two positions below `n`, in increasing order, occur in that order in
`List.range n`. -/
theorem pair_sublist_range (a b : Nat) (hab : a < b) : ∀ (n : Nat), b < n →
    List.Sublist [a, b] (List.range n) := by
  intro n
  induction n with
  | zero => intro h; omega
  | succ n ih =>
    intro hb
    rw [List.range_succ]
    by_cases hbn : b = n
    · subst hbn
      have h1 : List.Sublist [a] (List.range b) :=
        List.singleton_sublist.mpr (List.mem_range.mpr hab)
      exact List.Sublist.append h1 (List.Sublist.refl [b])
    · exact (ih (by omega)).trans (List.sublist_append_left _ _)

/-! ## The loop of scan_relocs -/

section scan_lemmas

variable {Sym : Type} (P : Params) (A : Scan_args Sym)

theorem reloc_at_succ (i : Nat) :
    reloc_at P i + Reloc_types.reloc_size P = reloc_at P (i + 1) := by
  simp [reloc_at, Nat.succ_mul]

theorem scan_relocs_loop_stop {n i p : Nat} {a : Assertion}
    (h : (scan_reloc P A p).failed = some a) :
    scan_relocs_loop P A (n + 1) i p =
      ⟨(scan_reloc P A p).calls.map (Prod.mk i), (scan_reloc P A p).resolves.map (Prod.mk i),
        .assert_failed i a⟩ := by
  simp [scan_relocs_loop, h]

theorem scan_relocs_loop_next {n i p : Nat} (h : (scan_reloc P A p).failed = none) :
    scan_relocs_loop P A (n + 1) i p =
      ⟨(scan_reloc P A p).calls.map (Prod.mk i) ++
          (scan_relocs_loop P A n (i + 1) (p + Reloc_types.reloc_size P)).calls,
        (scan_reloc P A p).resolves.map (Prod.mk i) ++
          (scan_relocs_loop P A n (i + 1) (p + Reloc_types.reloc_size P)).resolves,
        (scan_relocs_loop P A n (i + 1) (p + Reloc_types.reloc_size P)).outcome⟩ := by
  simp [scan_relocs_loop, h]

/-- A pass of the loop body fails exactly on the records that trip an
assertion. -/
theorem scan_reloc_failed_iff (i : Nat) :
    (scan_reloc P A (reloc_at P i)).failed ≠ none ↔ scan_asserts P A i := by
  unfold scan_asserts r_sym_at r_info_at scan_reloc
  by_cases h : elfcpp.elf_r_sym P.size
      (elfcpp.get_r_info P.size P.big_endian A.prelocs (reloc_at P i)) < A.local_count
  · simp only [h, if_true]
    cases hp : A.plocal_syms with
    | none => simp
    | some syms =>
      simp only []
      split <;> simp [Nat.not_le.mpr h]
  · simp only [h, if_false]
    cases hg : A.global_syms (elfcpp.elf_r_sym P.size
        (elfcpp.get_r_info P.size P.big_endian A.prelocs (reloc_at P i)) - A.local_count) with
    | none => simp [Nat.le_of_not_lt h]
    | some g =>
      simp only []
      split <;> simp

theorem scan_reloc_ok_iff (i : Nat) :
    (scan_reloc P A (reloc_at P i)).failed = none ↔ ¬ scan_asserts P A i := by
  rw [← scan_reloc_failed_iff]; simp

/-- Every call in the trace of the loop was made by the pass of its own
record, and that record lies in the range the loop walks. -/
theorem scan_relocs_loop_calls_mem (n : Nat) : ∀ (i : Nat) (x : Nat × Scan_call Sym),
    x ∈ (scan_relocs_loop P A n i (reloc_at P i)).calls →
      (i ≤ x.1 ∧ x.1 < i + n) ∧ x.2 ∈ (scan_reloc P A (reloc_at P x.1)).calls := by
  induction n with
  | zero => intro i x hx; simp [scan_relocs_loop] at hx
  | succ n ih =>
    intro i x hx
    cases hf : (scan_reloc P A (reloc_at P i)).failed with
    | some a =>
      rw [scan_relocs_loop_stop P A hf] at hx
      simp only [List.mem_map] at hx
      obtain ⟨c, hc, rfl⟩ := hx
      exact ⟨⟨Nat.le_refl _, by omega⟩, hc⟩
    | none =>
      rw [scan_relocs_loop_next P A hf, reloc_at_succ] at hx
      simp only [List.mem_append, List.mem_map] at hx
      rcases hx with ⟨c, hc, rfl⟩ | hx
      · exact ⟨⟨Nat.le_refl _, by omega⟩, hc⟩
      · have := ih (i + 1) x hx
        exact ⟨⟨by omega, by omega⟩, this.2⟩

/-- The same for the calls of `resolve_forwards`. -/
theorem scan_relocs_loop_resolves_mem (n : Nat) : ∀ (i : Nat) (x : Nat × Sym),
    x ∈ (scan_relocs_loop P A n i (reloc_at P i)).resolves →
      (i ≤ x.1 ∧ x.1 < i + n) ∧ x.2 ∈ (scan_reloc P A (reloc_at P x.1)).resolves := by
  induction n with
  | zero => intro i x hx; simp [scan_relocs_loop] at hx
  | succ n ih =>
    intro i x hx
    cases hf : (scan_reloc P A (reloc_at P i)).failed with
    | some a =>
      rw [scan_relocs_loop_stop P A hf] at hx
      simp only [List.mem_map] at hx
      obtain ⟨c, hc, rfl⟩ := hx
      exact ⟨⟨Nat.le_refl _, by omega⟩, hc⟩
    | none =>
      rw [scan_relocs_loop_next P A hf, reloc_at_succ] at hx
      simp only [List.mem_append, List.mem_map] at hx
      rcases hx with ⟨c, hc, rfl⟩ | hx
      · exact ⟨⟨Nat.le_refl _, by omega⟩, hc⟩
      · have := ih (i + 1) x hx
        exact ⟨⟨by omega, by omega⟩, this.2⟩

/-- The calls the trace holds for record `k`, when the loop gets as far as
`k`: those of the pass of the loop body on that record. -/
theorem scan_relocs_loop_calls_filter (n : Nat) : ∀ (i k : Nat), i ≤ k → k < i + n →
    (∀ j, i ≤ j → j < k → (scan_reloc P A (reloc_at P j)).failed = none) →
    (scan_relocs_loop P A n i (reloc_at P i)).calls.filter (fun x => decide (x.1 = k)) =
      (scan_reloc P A (reloc_at P k)).calls.map (Prod.mk k) := by
  induction n with
  | zero => intro i k h1 h2; omega
  | succ n ih =>
    intro i k h1 h2 hreach
    have hself : ∀ (l : List (Scan_call Sym)),
        (l.map (Prod.mk k)).filter (fun x => decide (x.1 = k)) = l.map (Prod.mk k) := by
      intro l; rw [List.filter_eq_self]; intro x hx
      simp only [List.mem_map] at hx; obtain ⟨c, _, rfl⟩ := hx; simp
    have hnone : ∀ (l : List (Scan_call Sym)), i ≠ k →
        (l.map (Prod.mk i)).filter (fun x => decide (x.1 = k)) = [] := by
      intro l hik; rw [List.filter_eq_nil_iff]; intro x hx
      simp only [List.mem_map] at hx; obtain ⟨c, _, rfl⟩ := hx; simpa using hik
    by_cases hik : i = k
    · subst hik
      cases hf : (scan_reloc P A (reloc_at P i)).failed with
      | some a => rw [scan_relocs_loop_stop P A hf]; exact hself _
      | none =>
        rw [scan_relocs_loop_next P A hf, reloc_at_succ]
        simp only [List.filter_append]
        rw [hself]
        have : (scan_relocs_loop P A n (i + 1) (reloc_at P (i + 1))).calls.filter
            (fun x => decide (x.1 = i)) = [] := by
          rw [List.filter_eq_nil_iff]; intro x hx
          have := (scan_relocs_loop_calls_mem P A n (i + 1) x hx).1
          simp; omega
        rw [this, List.append_nil]
    · have hf := hreach i (Nat.le_refl _) (by omega)
      rw [scan_relocs_loop_next P A hf, reloc_at_succ]
      simp only [List.filter_append]
      rw [hnone _ hik, List.nil_append]
      exact ih (i + 1) k (by omega) (by omega) (fun j hj1 hj2 => hreach j (by omega) hj2)

/-- How the loop ends: at the first record that trips an assertion, or by
returning when there is none. -/
theorem scan_relocs_loop_outcome (n : Nat) : ∀ (i : Nat),
    (∀ k a, (scan_relocs_loop P A n i (reloc_at P i)).outcome = .assert_failed k a ↔
      ((i ≤ k ∧ k < i + n) ∧
        (∀ j, i ≤ j → j < k → (scan_reloc P A (reloc_at P j)).failed = none) ∧
        (scan_reloc P A (reloc_at P k)).failed = some a)) ∧
    ((scan_relocs_loop P A n i (reloc_at P i)).outcome = .returned ↔
      ∀ j, i ≤ j → j < i + n → (scan_reloc P A (reloc_at P j)).failed = none) := by
  induction n with
  | zero =>
    intro i
    refine ⟨fun k a => ?_, ?_⟩
    · simp only [scan_relocs_loop]
      constructor
      · intro h; cases h
      · intro h; omega
    · simp only [scan_relocs_loop, true_iff]; intro j h1 h2; omega
  | succ n ih =>
    intro i
    cases hf : (scan_reloc P A (reloc_at P i)).failed with
    | some a0 =>
      rw [scan_relocs_loop_stop P A hf]
      refine ⟨fun k a => ?_, ?_⟩
      · simp only [Scan_outcome.assert_failed.injEq]
        constructor
        · rintro ⟨rfl, rfl⟩
          exact ⟨⟨Nat.le_refl _, by omega⟩, fun j h1 h2 => by omega, hf⟩
        · rintro ⟨⟨h1, _⟩, hre, hk⟩
          by_cases hik : i = k
          · subst hik; rw [hf] at hk; exact ⟨rfl, Option.some.inj hk⟩
          · have := hre i (Nat.le_refl _) (by omega)
            rw [hf] at this; cases this
      · constructor
        · intro h; cases h
        · intro h
          have := h i (Nat.le_refl _) (by omega)
          rw [hf] at this; cases this
    | none =>
      rw [scan_relocs_loop_next P A hf, reloc_at_succ]
      obtain ⟨ih1, ih2⟩ := ih (i + 1)
      refine ⟨fun k a => ?_, ?_⟩
      · simp only []
        rw [ih1 k a]
        constructor
        · rintro ⟨⟨h1, h2⟩, hre, hk⟩
          refine ⟨⟨by omega, by omega⟩, fun j hj1 hj2 => ?_, hk⟩
          by_cases hij : i = j
          · subst hij; exact hf
          · exact hre j (by omega) hj2
        · rintro ⟨⟨h1, h2⟩, hre, hk⟩
          have hik : i ≠ k := by
            intro h; subst h; rw [hf] at hk; cases hk
          exact ⟨⟨by omega, by omega⟩, fun j hj1 hj2 => hre j (by omega) hj2, hk⟩
      · simp only []
        rw [ih2]
        constructor
        · intro h j hj1 hj2
          by_cases hij : i = j
          · subst hij; exact hf
          · exact h j (by omega) (by omega)
        · intro h j hj1 hj2
          exact h j (by omega) (by omega)

/-- A pass of the loop body makes at most one call on the `Scan` object. -/
theorem scan_reloc_calls_length (p : Nat) : (scan_reloc P A p).calls.length ≤ 1 := by
  unfold scan_reloc
  simp only []
  split
  · split
    · simp
    · split <;> simp
  · split
    · simp
    · split <;> simp

/-- The loop counters of the calls on the `Scan` object strictly increase. -/
theorem scan_relocs_loop_positions_sorted (n : Nat) : ∀ (i : Nat),
    ((scan_relocs_loop P A n i (reloc_at P i)).calls.map Prod.fst).Pairwise (· < ·) := by
  induction n with
  | zero => intro i; simp [scan_relocs_loop]
  | succ n ih =>
    intro i
    have hlen := scan_reloc_calls_length P A (reloc_at P i)
    have hstep : ((scan_reloc P A (reloc_at P i)).calls.map (Prod.mk i)).map Prod.fst =
        List.replicate (scan_reloc P A (reloc_at P i)).calls.length i := by
      rw [List.map_map]
      exact List.eq_replicate_iff.mpr ⟨by simp, by simp⟩
    have hone : (List.replicate (scan_reloc P A (reloc_at P i)).calls.length i).Pairwise
        (· < ·) := by
      match hl : (scan_reloc P A (reloc_at P i)).calls.length, hlen with
      | 0, _ => simp
      | 1, _ => simp
    cases hf : (scan_reloc P A (reloc_at P i)).failed with
    | some a =>
      rw [scan_relocs_loop_stop P A hf]
      simp only []
      rw [hstep]; exact hone
    | none =>
      rw [scan_relocs_loop_next P A hf, reloc_at_succ]
      simp only [List.map_append]
      rw [hstep, List.pairwise_append]
      refine ⟨hone, ih _, ?_⟩
      intro a ha b hb
      have ha2 : a = i := (List.mem_replicate.mp ha).2
      subst ha2
      simp only [List.mem_map] at hb
      obtain ⟨x, hx, rfl⟩ := hb
      have := (scan_relocs_loop_calls_mem P A n (a + 1) x hx).1
      omega

/-- The pass on a local record outside a discarded section calls `scan.local`
once. -/
theorem scan_reloc_local (i : Nat) (syms : Mem)
    (hloc : r_sym_at P A.prelocs i < A.local_count) (hs : A.plocal_syms = some syms)
    (hd : in_discarded_section A.is_section_included (shndx_at P A.prelocs syms i) = false) :
    (scan_reloc P A (reloc_at P i)).calls =
      [.local_ (reloc_at P i) (r_type_at P A.prelocs i)
        (lsym_offset P.size (r_sym_at P A.prelocs i))] := by
  unfold r_sym_at r_info_at at hloc
  unfold shndx_at r_sym_at r_info_at at hd
  unfold scan_reloc r_type_at r_sym_at r_info_at
  simp only [hloc, if_true, hs, hd]
  simp

/-- The pass on a local record in a discarded section calls nothing. -/
theorem scan_reloc_discarded (i : Nat) (syms : Mem)
    (hloc : r_sym_at P A.prelocs i < A.local_count) (hs : A.plocal_syms = some syms)
    (hd : in_discarded_section A.is_section_included (shndx_at P A.prelocs syms i) = true) :
    (scan_reloc P A (reloc_at P i)).calls = [] := by
  unfold r_sym_at r_info_at at hloc
  unfold shndx_at r_sym_at r_info_at at hd
  unfold scan_reloc
  simp only [hloc, if_true, hs, hd]

/-- The pass on a global record with a non-null entry calls `scan.global` once,
with the handle left after the forwarder test, and calls `resolve_forwards`
only for a forwarder. -/
theorem scan_reloc_global (i : Nat) (g : Sym)
    (hglob : A.local_count ≤ r_sym_at P A.prelocs i)
    (hg : A.global_syms (r_sym_at P A.prelocs i - A.local_count) = some g) :
    (scan_reloc P A (reloc_at P i)).calls =
        [.global (reloc_at P i) (r_type_at P A.prelocs i) (resolved A.symtab g)] ∧
      (scan_reloc P A (reloc_at P i)).resolves =
        (if A.symtab.is_forwarder g then [g] else []) := by
  have hn : ¬ r_sym_at P A.prelocs i < A.local_count := Nat.not_lt.mpr hglob
  unfold r_sym_at r_info_at at hn hg
  unfold scan_reloc r_type_at r_info_at resolved
  simp only [hn, if_false, hg]
  split <;> simp

/-- Whatever a pass calls on the `Scan` object is the call of its record:
`scan.local` for a local record with the entry the code reads, `scan.global`
for a global one with the handle left after the forwarder test. -/
theorem scan_reloc_calls_mem (i : Nat) (c : Scan_call Sym)
    (hc : c ∈ (scan_reloc P A (reloc_at P i)).calls) :
    (r_sym_at P A.prelocs i < A.local_count ∧
      c = .local_ (reloc_at P i) (r_type_at P A.prelocs i)
        (lsym_offset P.size (r_sym_at P A.prelocs i))) ∨
    (A.local_count ≤ r_sym_at P A.prelocs i ∧
      ∃ g, A.global_syms (r_sym_at P A.prelocs i - A.local_count) = some g ∧
        c = .global (reloc_at P i) (r_type_at P A.prelocs i) (resolved A.symtab g)) := by
  by_cases hloc : r_sym_at P A.prelocs i < A.local_count
  · left
    refine ⟨hloc, ?_⟩
    cases hs : A.plocal_syms with
    | none =>
      unfold r_sym_at r_info_at at hloc
      unfold scan_reloc at hc
      simp only [hloc, if_true, hs] at hc
      simp at hc
    | some syms =>
      cases hd : in_discarded_section A.is_section_included (shndx_at P A.prelocs syms i) with
      | true => rw [scan_reloc_discarded P A i syms hloc hs hd] at hc; simp at hc
      | false => rw [scan_reloc_local P A i syms hloc hs hd] at hc; simpa using hc
  · right
    have hglob := Nat.le_of_not_lt hloc
    refine ⟨hglob, ?_⟩
    cases hg : A.global_syms (r_sym_at P A.prelocs i - A.local_count) with
    | none =>
      unfold r_sym_at r_info_at at hloc hg
      unfold scan_reloc at hc
      simp only [hloc, if_false, hg] at hc
      simp at hc
    | some g =>
      rw [(scan_reloc_global P A i g hglob hg).1] at hc
      exact ⟨g, rfl, by simpa using hc⟩

/-- Whatever a pass gives to `resolve_forwards` is the forwarder found in the
entry of its global record. -/
theorem scan_reloc_resolves_mem (i : Nat) (h : Sym)
    (hc : h ∈ (scan_reloc P A (reloc_at P i)).resolves) :
    A.local_count ≤ r_sym_at P A.prelocs i ∧
      A.global_syms (r_sym_at P A.prelocs i - A.local_count) = some h ∧
      A.symtab.is_forwarder h = true := by
  by_cases hloc : r_sym_at P A.prelocs i < A.local_count
  · exfalso
    unfold r_sym_at r_info_at at hloc
    unfold scan_reloc at hc
    simp only [hloc, if_true] at hc
    revert hc
    split
    · simp
    · split <;> simp
  · have hglob := Nat.le_of_not_lt hloc
    refine ⟨hglob, ?_⟩
    cases hg : A.global_syms (r_sym_at P A.prelocs i - A.local_count) with
    | none =>
      unfold r_sym_at r_info_at at hloc hg
      unfold scan_reloc at hc
      simp only [hloc, if_false, hg] at hc
      simp at hc
    | some g =>
      rw [(scan_reloc_global P A i g hglob hg).2] at hc
      by_cases hf : A.symtab.is_forwarder g = true
      · simp only [hf, if_true, List.mem_singleton] at hc
        subst hc; exact ⟨rfl, hf⟩
      · simp [hf] at hc

/-- A pass gives at most one handle to `resolve_forwards`. -/
theorem scan_reloc_resolves_length (p : Nat) : (scan_reloc P A p).resolves.length ≤ 1 := by
  unfold scan_reloc
  simp only []
  split
  · split
    · simp
    · split <;> simp
  · split
    · simp
    · split <;> simp

/-- Which assertion a failing pass trips. -/
theorem scan_reloc_failed_which (i : Nat) (a : Assertion)
    (h : (scan_reloc P A (reloc_at P i)).failed = some a) :
    (a = .plocal_syms_not_null ∧ r_sym_at P A.prelocs i < A.local_count ∧
      A.plocal_syms = none) ∨
    (a = .gsym_not_null ∧ A.local_count ≤ r_sym_at P A.prelocs i ∧
      A.global_syms (r_sym_at P A.prelocs i - A.local_count) = none) := by
  unfold r_sym_at r_info_at
  unfold scan_reloc at h
  by_cases hl : elfcpp.elf_r_sym P.size
      (elfcpp.get_r_info P.size P.big_endian A.prelocs (reloc_at P i)) < A.local_count
  · simp only [hl, if_true] at h
    cases hp : A.plocal_syms with
    | none =>
      rw [hp] at h
      simp only [Option.some.injEq] at h
      exact Or.inl ⟨h.symm, hl, rfl⟩
    | some syms =>
      rw [hp] at h
      simp only [] at h
      split at h <;> simp at h
  · simp only [hl, if_false] at h
    cases hg : A.global_syms (elfcpp.elf_r_sym P.size
        (elfcpp.get_r_info P.size P.big_endian A.prelocs (reloc_at P i)) - A.local_count) with
    | none =>
      rw [hg] at h
      simp only [Option.some.injEq] at h
      exact Or.inr ⟨h.symm, Nat.le_of_not_lt hl, rfl⟩
    | some g =>
      rw [hg] at h
      simp only [] at h
      split at h <;> simp at h

/-- The loop counters of the calls of `resolve_forwards` strictly increase. -/
theorem scan_relocs_loop_resolves_sorted (n : Nat) : ∀ (i : Nat),
    ((scan_relocs_loop P A n i (reloc_at P i)).resolves.map Prod.fst).Pairwise (· < ·) := by
  induction n with
  | zero => intro i; simp [scan_relocs_loop]
  | succ n ih =>
    intro i
    have hgen : ∀ (rs : List Sym), rs.length ≤ 1 →
        ((rs.map (Prod.mk i)).map Prod.fst).Pairwise (· < ·) := by
      intro rs hrs
      match rs, hrs with
      | [], _ => simp
      | [_], _ => simp
    have hhead := hgen _ (scan_reloc_resolves_length P A (reloc_at P i))
    cases hf : (scan_reloc P A (reloc_at P i)).failed with
    | some a =>
      rw [scan_relocs_loop_stop P A hf]
      exact hhead
    | none =>
      rw [scan_relocs_loop_next P A hf, reloc_at_succ]
      simp only [List.map_append]
      rw [List.pairwise_append]
      refine ⟨hhead, ih _, ?_⟩
      intro a ha b hb
      simp only [List.mem_map] at ha hb
      obtain ⟨y, ⟨g, _, rfl⟩, rfl⟩ := ha
      obtain ⟨x, hx, rfl⟩ := hb
      have := (scan_relocs_loop_resolves_mem P A n (i + 1) x hx).1
      simp only []
      omega

theorem reloc_at_zero : reloc_at P 0 = 0 := by simp [reloc_at]

/-- The calls the trace of `scan_relocs` holds for a record the scan gets to
are those of the pass of the loop body on it. -/
theorem scan_calls_for_eq (k : Nat) (hk : k < A.reloc_count)
    (hreach : ∀ j, j < k → ¬ scan_asserts P A j) :
    scan_calls_for (scan_relocs P A) k = (scan_reloc P A (reloc_at P k)).calls := by
  unfold scan_calls_for scan_relocs
  have h := scan_relocs_loop_calls_filter P A A.reloc_count 0 k (Nat.zero_le _) (by omega)
    (fun j _ hj => (scan_reloc_ok_iff P A j).mpr (hreach j hj))
  rw [reloc_at_zero] at h
  rw [h, List.map_map]
  simp

end scan_lemmas

/-! ## The loop of relocate_section -/

section relocate_lemmas

variable {σ Sym : Type} (P : Params) (relinfo : Relocate_info Sym) (relocate : Relocate σ Sym)
  (prelocs : Mem) (view_address : Nat) (view_size : Int)

/-- The first part of the loop body fails exactly on a global record with a
null entry. -/
theorem relocate_operands_none_iff (i : Nat) :
    relocate_operands P relinfo prelocs view_address view_size i (reloc_at P i) = none ↔
      relocate_asserts P relinfo prelocs i := by
  unfold relocate_asserts r_sym_at r_info_at relocate_operands
  by_cases h : elfcpp.elf_r_sym P.size
      (elfcpp.get_r_info P.size P.big_endian prelocs (reloc_at P i)) < relinfo.local_symbol_count
  · simp only [h, if_true]
    simp [Nat.not_le.mpr h]
  · simp only [h, if_false]
    cases hg : relinfo.symbols (elfcpp.elf_r_sym P.size
        (elfcpp.get_r_info P.size P.big_endian prelocs (reloc_at P i)) -
          relinfo.local_symbol_count) with
    | none => simp [Nat.le_of_not_lt h]
    | some g =>
      simp only []
      split <;> simp

/-- The arguments prepared for record `i`: everything but the symbol and the
value is decoded from the record; a local record gets no symbol and the value
of `local_values`, a global record the handle left after the forwarder test
and the value of that handle. -/
theorem relocate_operands_some (i : Nat) (c : Relocate_call Sym) (rs : List Sym)
    (h : relocate_operands P relinfo prelocs view_address view_size i (reloc_at P i) =
      some (c, rs)) :
    (c.i = i ∧ c.reloc = reloc_at P i ∧ c.r_type = r_type_at P prelocs i ∧
      c.view = offset_at P prelocs i ∧
      c.address = to_Elf_Addr P.size ((view_address : Int) + offset_at P prelocs i) ∧
      c.view_size = view_size) ∧
    (r_sym_at P prelocs i < relinfo.local_symbol_count →
      c.sym = none ∧ c.value = relinfo.values (r_sym_at P prelocs i) ∧ rs = []) ∧
    (relinfo.local_symbol_count ≤ r_sym_at P prelocs i →
      ∃ g, relinfo.symbols (r_sym_at P prelocs i - relinfo.local_symbol_count) = some g ∧
        c.sym = some (resolved relinfo.symtab g) ∧
        c.value = relinfo.symtab.value (resolved relinfo.symtab g) ∧
        rs = (if relinfo.symtab.is_forwarder g then [g] else [])) := by
  unfold relocate_operands at h
  unfold r_type_at offset_at r_sym_at r_info_at resolved
  by_cases hl : elfcpp.elf_r_sym P.size
      (elfcpp.get_r_info P.size P.big_endian prelocs (reloc_at P i)) < relinfo.local_symbol_count
  · simp only [hl, if_true, Option.some.injEq, Prod.mk.injEq] at h
    obtain ⟨rfl, rfl⟩ := h
    refine ⟨⟨rfl, rfl, rfl, rfl, rfl, rfl⟩, fun _ => ⟨rfl, rfl, rfl⟩, fun h2 => ?_⟩
    exact absurd hl (Nat.not_lt.mpr h2)
  · simp only [hl, if_false] at h
    cases hg : relinfo.symbols (elfcpp.elf_r_sym P.size
        (elfcpp.get_r_info P.size P.big_endian prelocs (reloc_at P i)) -
          relinfo.local_symbol_count) with
    | none => rw [hg] at h; simp at h
    | some g =>
      rw [hg] at h
      simp only [] at h
      by_cases hf : relinfo.symtab.is_forwarder g = true
      · simp only [hf, if_true, Option.some.injEq, Prod.mk.injEq] at h
        obtain ⟨rfl, rfl⟩ := h
        refine ⟨⟨rfl, rfl, rfl, rfl, rfl, rfl⟩, fun h2 => absurd h2 hl, fun _ => ?_⟩
        exact ⟨g, rfl, by simp [hf], by simp [hf], by simp [hf]⟩
      · simp only [hf, Option.some.injEq, Prod.mk.injEq] at h
        obtain ⟨rfl, rfl⟩ := h
        refine ⟨⟨rfl, rfl, rfl, rfl, rfl, rfl⟩, fun h2 => absurd h2 hl, fun _ => ?_⟩
        exact ⟨g, rfl, by simp [hf], by simp [hf], by simp [hf]⟩

/-- What the second part of the loop body does with the answer `ret`. -/
theorem relocate_checks_eq (i : Nat) (offset : Int) (c : Relocate_call Sym) (rs : List Sym)
    (ret : Bool) (s : σ) :
    relocate_checks relinfo view_size i offset c rs ret s =
      ⟨[(c, ret)], rs,
        if ret then
          (if bad_offset offset view_size then [.bad_offset i offset (to_size_t offset)]
            else undefined_report relinfo.symtab i offset c.sym)
        else [],
        s,
        if ret && bad_offset offset view_size then some (.gold_exit_false i) else none⟩ := by
  unfold relocate_checks
  cases ret <;> cases hb : bad_offset offset view_size <;> simp

/-- The pass of the loop body on a record that trips the assertion. -/
theorem relocate_reloc_none (i p : Nat) (s : σ)
    (h : relocate_operands P relinfo prelocs view_address view_size i p = none) :
    relocate_reloc P relinfo relocate prelocs view_address view_size i p s =
      ⟨[], [], [], s, some (.assert_failed i)⟩ := by
  unfold relocate_reloc; rw [h]

/-- The pass of the loop body on a record whose operands are ready. -/
theorem relocate_reloc_some (i p : Nat) (s : σ) (c : Relocate_call Sym) (rs : List Sym)
    (h : relocate_operands P relinfo prelocs view_address view_size i p = some (c, rs)) :
    relocate_reloc P relinfo relocate prelocs view_address view_size i p s =
      ⟨[(c, (relocate s c).1)], rs,
        if (relocate s c).1 then
          (if bad_offset c.view view_size then [.bad_offset i c.view (to_size_t c.view)]
            else undefined_report relinfo.symtab i c.view c.sym)
        else [],
        (relocate s c).2,
        if (relocate s c).1 && bad_offset c.view view_size then some (.gold_exit_false i)
          else none⟩ := by
  unfold relocate_reloc; rw [h]; simp only []; rw [relocate_checks_eq]

theorem relocate_section_loop_stop {n i p : Nat} {s : σ} {o : Relocate_outcome}
    (h : (relocate_reloc P relinfo relocate prelocs view_address view_size i p s).stop = some o) :
    relocate_section_loop P relinfo relocate prelocs view_address view_size (n + 1) i p s =
      ⟨(relocate_reloc P relinfo relocate prelocs view_address view_size i p s).calls,
        (relocate_reloc P relinfo relocate prelocs view_address view_size i p s).resolves.map
          (Prod.mk i),
        (relocate_reloc P relinfo relocate prelocs view_address view_size i p s).diags,
        (relocate_reloc P relinfo relocate prelocs view_address view_size i p s).state, o⟩ := by
  simp [relocate_section_loop, h]

theorem relocate_section_loop_next {n i p : Nat} {s : σ}
    (h : (relocate_reloc P relinfo relocate prelocs view_address view_size i p s).stop = none) :
    relocate_section_loop P relinfo relocate prelocs view_address view_size (n + 1) i p s =
      ⟨(relocate_reloc P relinfo relocate prelocs view_address view_size i p s).calls ++
          (relocate_section_loop P relinfo relocate prelocs view_address view_size n (i + 1)
            (p + Reloc_types.reloc_size P)
            (relocate_reloc P relinfo relocate prelocs view_address view_size i p s).state).calls,
        (relocate_reloc P relinfo relocate prelocs view_address view_size i p s).resolves.map
            (Prod.mk i) ++
          (relocate_section_loop P relinfo relocate prelocs view_address view_size n (i + 1)
            (p + Reloc_types.reloc_size P)
            (relocate_reloc P relinfo relocate prelocs view_address view_size i p
                s).state).resolves,
        (relocate_reloc P relinfo relocate prelocs view_address view_size i p s).diags ++
          (relocate_section_loop P relinfo relocate prelocs view_address view_size n (i + 1)
            (p + Reloc_types.reloc_size P)
            (relocate_reloc P relinfo relocate prelocs view_address view_size i p s).state).diags,
        (relocate_section_loop P relinfo relocate prelocs view_address view_size n (i + 1)
            (p + Reloc_types.reloc_size P)
            (relocate_reloc P relinfo relocate prelocs view_address view_size i p s).state).state,
        (relocate_section_loop P relinfo relocate prelocs view_address view_size n (i + 1)
            (p + Reloc_types.reloc_size P)
            (relocate_reloc P relinfo relocate prelocs view_address view_size i p
                s).state).outcome⟩ := by
  simp [relocate_section_loop, h]

/-- The loop stops at a record that trips the assertion. -/
theorem relocate_section_loop_assert (n i : Nat) (s : σ)
    (h : relocate_operands P relinfo prelocs view_address view_size i (reloc_at P i) = none) :
    relocate_section_loop P relinfo relocate prelocs view_address view_size (n + 1) i
        (reloc_at P i) s =
      ⟨[], [], [], s, .assert_failed i⟩ := by
  rw [relocate_section_loop_stop (o := .assert_failed i)]
  · rw [relocate_reloc_none P relinfo relocate prelocs view_address view_size i _ s h]
    simp
  · rw [relocate_reloc_none P relinfo relocate prelocs view_address view_size i _ s h]

/-- The loop stops at a record for which the target answered true and whose
offset fails the bounds check. -/
theorem relocate_section_loop_exit (n i : Nat) (s : σ) (c : Relocate_call Sym) (rs : List Sym)
    (h : relocate_operands P relinfo prelocs view_address view_size i (reloc_at P i) =
      some (c, rs))
    (hret : (relocate s c).1 = true) (hbad : bad_offset c.view view_size = true) :
    relocate_section_loop P relinfo relocate prelocs view_address view_size (n + 1) i
        (reloc_at P i) s =
      ⟨[(c, true)], rs.map (Prod.mk i), [.bad_offset i c.view (to_size_t c.view)],
        (relocate s c).2, .gold_exit_false i⟩ := by
  rw [relocate_section_loop_stop (o := .gold_exit_false i)]
  · rw [relocate_reloc_some P relinfo relocate prelocs view_address view_size i _ s c rs h]
    simp [hret, hbad]
  · rw [relocate_reloc_some P relinfo relocate prelocs view_address view_size i _ s c rs h]
    simp [hret, hbad]

/-- The loop goes on to the next record in every other case. -/
theorem relocate_section_loop_continue (n i : Nat) (s : σ) (c : Relocate_call Sym)
    (rs : List Sym)
    (h : relocate_operands P relinfo prelocs view_address view_size i (reloc_at P i) =
      some (c, rs))
    (hgo : ((relocate s c).1 && bad_offset c.view view_size) = false) :
    relocate_section_loop P relinfo relocate prelocs view_address view_size (n + 1) i
        (reloc_at P i) s =
      ⟨(c, (relocate s c).1) ::
          (relocate_section_loop P relinfo relocate prelocs view_address view_size n (i + 1)
            (reloc_at P (i + 1)) (relocate s c).2).calls,
        rs.map (Prod.mk i) ++
          (relocate_section_loop P relinfo relocate prelocs view_address view_size n (i + 1)
            (reloc_at P (i + 1)) (relocate s c).2).resolves,
        (if (relocate s c).1 then undefined_report relinfo.symtab i c.view c.sym else []) ++
          (relocate_section_loop P relinfo relocate prelocs view_address view_size n (i + 1)
            (reloc_at P (i + 1)) (relocate s c).2).diags,
        (relocate_section_loop P relinfo relocate prelocs view_address view_size n (i + 1)
            (reloc_at P (i + 1)) (relocate s c).2).state,
        (relocate_section_loop P relinfo relocate prelocs view_address view_size n (i + 1)
            (reloc_at P (i + 1)) (relocate s c).2).outcome⟩ := by
  rw [relocate_section_loop_next]
  · rw [relocate_reloc_some P relinfo relocate prelocs view_address view_size i _ s c rs h]
    simp only [reloc_at_succ, List.singleton_append, hgo]
    congr 1
    cases hr : (relocate s c).1
    · simp
    · rw [hr] at hgo
      simp only [Bool.true_and] at hgo
      simp [hgo]
  · rw [relocate_reloc_some P relinfo relocate prelocs view_address view_size i _ s c rs h]
    simp [hgo]

/-- The three ways a pass of the loop can go. -/
theorem relocate_section_loop_cases (i : Nat) (s : σ) :
    relocate_operands P relinfo prelocs view_address view_size i (reloc_at P i) = none ∨
    (∃ c rs, relocate_operands P relinfo prelocs view_address view_size i (reloc_at P i) =
        some (c, rs) ∧ (relocate s c).1 = true ∧ bad_offset c.view view_size = true) ∨
    (∃ c rs, relocate_operands P relinfo prelocs view_address view_size i (reloc_at P i) =
        some (c, rs) ∧ ((relocate s c).1 && bad_offset c.view view_size) = false) := by
  cases h : relocate_operands P relinfo prelocs view_address view_size i (reloc_at P i) with
  | none => exact Or.inl rfl
  | some x =>
    obtain ⟨c, rs⟩ := x
    right
    cases hb : ((relocate s c).1 && bad_offset c.view view_size)
    · exact Or.inr ⟨c, rs, rfl, hb⟩
    · simp only [Bool.and_eq_true] at hb
      exact Or.inl ⟨c, rs, rfl, hb.1, hb.2⟩

/-- Every call of `relocate.relocate` in the trace carries the operands of its
own record, and that record lies in the range the loop walks. -/
theorem relocate_section_loop_calls_mem (n : Nat) : ∀ (i : Nat) (s : σ)
    (x : Relocate_call Sym × Bool),
    x ∈ (relocate_section_loop P relinfo relocate prelocs view_address view_size n i (reloc_at P i)
        s).calls →
      (i ≤ x.1.i ∧ x.1.i < i + n) ∧
        ∃ rs, relocate_operands P relinfo prelocs view_address view_size x.1.i (reloc_at P x.1.i) =
            some (x.1, rs) := by
  induction n with
  | zero => intro i s x hx; simp [relocate_section_loop] at hx
  | succ n ih =>
    intro i s x hx
    rcases relocate_section_loop_cases P relinfo relocate prelocs view_address view_size i s with
      h | ⟨c, rs, h, hret, hbad⟩ | ⟨c, rs, h, hgo⟩
    · rw [relocate_section_loop_assert P relinfo relocate prelocs view_address view_size n i s h]
        at hx
      simp at hx
    · rw [relocate_section_loop_exit P relinfo relocate prelocs view_address view_size n i s c rs
        h hret hbad] at hx
      simp only [List.mem_singleton] at hx
      subst hx
      have hi := (relocate_operands_some P relinfo prelocs view_address view_size i c rs h).1.1
      simp only []
      rw [hi]
      exact ⟨⟨Nat.le_refl _, by omega⟩, rs, h⟩
    · rw [relocate_section_loop_continue P relinfo relocate prelocs view_address view_size n i s
        c rs h hgo] at hx
      simp only [List.mem_cons] at hx
      rcases hx with hx | hx
      · subst hx
        have hi := (relocate_operands_some P relinfo prelocs view_address view_size i c rs h).1.1
        simp only []
        rw [hi]
        exact ⟨⟨Nat.le_refl _, by omega⟩, rs, h⟩
      · have := ih (i + 1) _ x hx
        exact ⟨⟨by omega, by omega⟩, this.2⟩

/-- The record numbers given to `relocate.relocate` are consecutive from the
start of the loop. -/
theorem relocate_section_loop_positions (n : Nat) : ∀ (i : Nat) (s : σ),
    (relocate_section_loop P relinfo relocate prelocs view_address view_size n i (reloc_at P i)
        s).calls.map (fun x => x.1.i) =
      List.range' i (relocate_section_loop P relinfo relocate prelocs view_address view_size n i
          (reloc_at P i) s).calls.length := by
  induction n with
  | zero => intro i s; simp [relocate_section_loop]
  | succ n ih =>
    intro i s
    rcases relocate_section_loop_cases P relinfo relocate prelocs view_address view_size i s with
      h | ⟨c, rs, h, hret, hbad⟩ | ⟨c, rs, h, hgo⟩
    · rw [relocate_section_loop_assert P relinfo relocate prelocs view_address view_size n i s h]
      simp
    · rw [relocate_section_loop_exit P relinfo relocate prelocs view_address view_size n i s c rs
        h hret hbad]
      have hi := (relocate_operands_some P relinfo prelocs view_address view_size i c rs h).1.1
      simp [hi]
    · rw [relocate_section_loop_continue P relinfo relocate prelocs view_address view_size n i s
        c rs h hgo]
      have hi := (relocate_operands_some P relinfo prelocs view_address view_size i c rs h).1.1
      simp only [List.map_cons, List.length_cons, ih (i + 1), hi]
      simp [List.range'_succ]

/-- How the loop ends, and how far it got: it returns after all `n` records,
none of which had a true answer with a bad offset; or it exits at record `k`,
the only one with a true answer and a bad offset, after the call for `k`; or an
assertion fails at the global record `k` with a null entry, before any call
for `k`. -/
theorem relocate_section_loop_outcome (n : Nat) : ∀ (i : Nat) (s : σ),
    ((relocate_section_loop P relinfo relocate prelocs view_address view_size n i (reloc_at P i)
        s).outcome = .returned →
      (relocate_section_loop P relinfo relocate prelocs view_address view_size n i (reloc_at P i)
          s).calls.length = n ∧
      ∀ x ∈ (relocate_section_loop P relinfo relocate prelocs view_address view_size n i (reloc_at
          P i) s).calls,
        ¬ (x.2 = true ∧ bad_offset x.1.view view_size = true)) ∧
    (∀ k, (relocate_section_loop P relinfo relocate prelocs view_address view_size n i (reloc_at P
        i) s).outcome = .gold_exit_false k →
      (i ≤ k ∧ k < i + n) ∧ (relocate_section_loop P relinfo relocate prelocs view_address
          view_size n i (reloc_at P i) s).calls.length = k + 1 - i ∧
      (∃ x ∈ (relocate_section_loop P relinfo relocate prelocs view_address view_size n i (reloc_at
          P i) s).calls,
        x.1.i = k ∧ x.2 = true ∧ bad_offset x.1.view view_size = true) ∧
      (∀ x ∈ (relocate_section_loop P relinfo relocate prelocs view_address view_size n i (reloc_at
          P i) s).calls,
        x.2 = true → bad_offset x.1.view view_size = true → x.1.i = k) ∧
      Diagnostic.bad_offset k (offset_at P prelocs k) (to_size_t (offset_at P prelocs k)) ∈
        (relocate_section_loop P relinfo relocate prelocs view_address view_size n i (reloc_at P i)
            s).diags) ∧
    (∀ k, (relocate_section_loop P relinfo relocate prelocs view_address view_size n i (reloc_at P
        i) s).outcome = .assert_failed k →
      (i ≤ k ∧ k < i + n) ∧ (relocate_section_loop P relinfo relocate prelocs view_address
          view_size n i (reloc_at P i) s).calls.length = k - i ∧
      relocate_asserts P relinfo prelocs k ∧
      ∀ x ∈ (relocate_section_loop P relinfo relocate prelocs view_address view_size n i (reloc_at
          P i) s).calls,
        ¬ (x.2 = true ∧ bad_offset x.1.view view_size = true)) := by
  induction n with
  | zero =>
    intro i s
    simp [relocate_section_loop]
  | succ n ih =>
    intro i s
    rcases relocate_section_loop_cases P relinfo relocate prelocs view_address view_size i s with
      h | ⟨c, rs, h, hret, hbad⟩ | ⟨c, rs, h, hgo⟩
    · rw [relocate_section_loop_assert P relinfo relocate prelocs view_address view_size n i s h]
      refine ⟨fun h1 => (by cases h1), fun k h1 => (by cases h1), fun k h1 => ?_⟩
      simp only [Relocate_outcome.assert_failed.injEq] at h1
      subst h1
      refine ⟨⟨Nat.le_refl _, by omega⟩, by simp, ?_, by simp⟩
      exact (relocate_operands_none_iff P relinfo prelocs view_address view_size i).mp h
    · rw [relocate_section_loop_exit P relinfo relocate prelocs view_address view_size n i s c rs
        h hret hbad]
      have hc := (relocate_operands_some P relinfo prelocs view_address view_size i c rs h).1
      refine ⟨fun h1 => (by cases h1), fun k h1 => ?_, fun k h1 => (by cases h1)⟩
      simp only [Relocate_outcome.gold_exit_false.injEq] at h1
      subst h1
      refine ⟨⟨Nat.le_refl _, by omega⟩, by simp, ⟨(c, true), by simp, hc.1, rfl, hbad⟩, ?_, ?_⟩
      · intro x hx _ _
        simp only [List.mem_singleton] at hx
        subst hx; exact hc.1
      · rw [← hc.2.2.2.1]; simp
    · rw [relocate_section_loop_continue P relinfo relocate prelocs view_address view_size n i s
        c rs h hgo]
      have hc := (relocate_operands_some P relinfo prelocs view_address view_size i c rs h).1
      obtain ⟨ih1, ih2, ih3⟩ := ih (i + 1) (relocate s c).2
      have hhead : ¬ ((relocate s c).1 = true ∧ bad_offset c.view view_size = true) := by
        intro hh
        rw [hh.1, hh.2] at hgo
        simp at hgo
      refine ⟨fun h1 => ?_, fun k h1 => ?_, fun k h1 => ?_⟩
      · obtain ⟨hl, hall⟩ := ih1 h1
        refine ⟨by simp [hl], ?_⟩
        intro x hx
        simp only [List.mem_cons] at hx
        rcases hx with hx | hx
        · subst hx; exact hhead
        · exact hall x hx
      · obtain ⟨hb, hl, ⟨x, hx, hx1, hx2, hx3⟩, huniq, hd⟩ := ih2 k h1
        refine ⟨⟨by omega, by omega⟩, ?_, ⟨x, List.mem_cons_of_mem _ hx, hx1, hx2, hx3⟩, ?_, ?_⟩
        · simp only [List.length_cons, hl]; omega
        · intro y hy hy2 hy3
          simp only [List.mem_cons] at hy
          rcases hy with hy | hy
          · subst hy; exact absurd ⟨hy2, hy3⟩ hhead
          · exact huniq y hy hy2 hy3
        · exact List.mem_append_right _ hd
      · obtain ⟨hb, hl, hk, hall⟩ := ih3 k h1
        refine ⟨⟨by omega, by omega⟩, ?_, hk, ?_⟩
        · simp only [List.length_cons, hl]; omega
        · intro x hx
          simp only [List.mem_cons] at hx
          rcases hx with hx | hx
          · subst hx; exact hhead
          · exact hall x hx

/-- The final state of the target and section data is the one left by the
calls of `relocate.relocate` in the trace, one after the other: nothing else
changes it. -/
theorem relocate_section_loop_state (n : Nat) : ∀ (i : Nat) (s : σ),
    (relocate_section_loop P relinfo relocate prelocs view_address view_size n i (reloc_at P i)
        s).state =
      (relocate_section_loop P relinfo relocate prelocs view_address view_size n i (reloc_at P i)
          s).calls.foldl (fun t x => (relocate t x.1).2) s := by
  induction n with
  | zero => intro i s; simp [relocate_section_loop]
  | succ n ih =>
    intro i s
    rcases relocate_section_loop_cases P relinfo relocate prelocs view_address view_size i s with
      h | ⟨c, rs, h, hret, hbad⟩ | ⟨c, rs, h, hgo⟩
    · rw [relocate_section_loop_assert P relinfo relocate prelocs view_address view_size n i s h]
      simp
    · rw [relocate_section_loop_exit P relinfo relocate prelocs view_address view_size n i s c rs
        h hret hbad]
      simp
    · rw [relocate_section_loop_continue P relinfo relocate prelocs view_address view_size n i s
        c rs h hgo]
      simp only [List.foldl_cons]
      exact ih (i + 1) _

/-- The undefined-reference report of record `i` is about record `i`. -/
theorem undefined_report_relnum (T : Symbol_table Sym) (i : Nat) (offset : Int)
    (sym : Option Sym) : ∀ d ∈ undefined_report T i offset sym, d.relnum = i := by
  intro d hd
  unfold undefined_report at hd
  cases sym with
  | none => simp at hd
  | some g =>
    simp only [] at hd
    split at hd
    · simp only [List.mem_singleton] at hd; subst hd; rfl
    · simp at hd

/-- Every message of the trace is about a record in the range the loop walks. -/
theorem relocate_section_loop_diags_mem (n : Nat) : ∀ (i : Nat) (s : σ) (d : Diagnostic),
    d ∈ (relocate_section_loop P relinfo relocate prelocs view_address view_size n i (reloc_at P i)
        s).diags → i ≤ d.relnum ∧ d.relnum < i + n := by
  induction n with
  | zero => intro i s d hd; simp [relocate_section_loop] at hd
  | succ n ih =>
    intro i s d hd
    rcases relocate_section_loop_cases P relinfo relocate prelocs view_address view_size i s with
      h | ⟨c, rs, h, hret, hbad⟩ | ⟨c, rs, h, hgo⟩
    · rw [relocate_section_loop_assert P relinfo relocate prelocs view_address view_size n i s h]
          at hd
      simp at hd
    · rw [relocate_section_loop_exit P relinfo relocate prelocs view_address view_size n i s c rs h
          hret hbad] at hd
      simp only [List.mem_singleton] at hd
      subst hd
      exact ⟨Nat.le_refl _, by simp [Diagnostic.relnum]⟩
    · rw [relocate_section_loop_continue P relinfo relocate prelocs view_address view_size n i s c
          rs h hgo] at hd
      simp only [List.mem_append] at hd
      rcases hd with hd | hd
      · have : d.relnum = i := by
          cases hr : (relocate s c).1
          · rw [hr] at hd; simp at hd
          · rw [hr] at hd
            exact undefined_report_relnum relinfo.symtab i c.view c.sym d hd
        omega
      · have := ih (i + 1) _ d hd
        omega

/-- The messages the trace holds for the record of a call: none after a false
answer; after a true answer the bad-offset message alone when the offset
fails the bounds check, and the undefined-reference report otherwise. -/
theorem relocate_section_loop_diags_filter (n : Nat) : ∀ (i : Nat) (s : σ)
    (x : Relocate_call Sym × Bool), x ∈ (relocate_section_loop P relinfo relocate prelocs
        view_address view_size n i (reloc_at P i) s).calls →
    (relocate_section_loop P relinfo relocate prelocs view_address view_size n i (reloc_at P i)
        s).diags.filter (fun d => decide (d.relnum = x.1.i)) =
      (if x.2 then
        (if bad_offset x.1.view view_size then
          [.bad_offset x.1.i x.1.view (to_size_t x.1.view)]
        else undefined_report relinfo.symtab x.1.i x.1.view x.1.sym)
      else []) := by
  induction n with
  | zero => intro i s x hx; simp [relocate_section_loop] at hx
  | succ n ih =>
    intro i s x hx
    rcases relocate_section_loop_cases P relinfo relocate prelocs view_address view_size i s with
      h | ⟨c, rs, h, hret, hbad⟩ | ⟨c, rs, h, hgo⟩
    · rw [relocate_section_loop_assert P relinfo relocate prelocs view_address view_size n i s h]
          at hx
      simp at hx
    · have hi := (relocate_operands_some P relinfo prelocs view_address view_size i c rs h).1.1
      rw [relocate_section_loop_exit P relinfo relocate prelocs view_address view_size n i s c rs h
          hret hbad] at hx ⊢
      simp only [List.mem_singleton] at hx
      subst hx
      simp [hbad, hi, Diagnostic.relnum]
    · have hi := (relocate_operands_some P relinfo prelocs view_address view_size i c rs h).1.1
      rw [relocate_section_loop_continue P relinfo relocate prelocs view_address view_size n i s c
          rs h hgo] at hx ⊢
      simp only [List.filter_append]
      simp only [List.mem_cons] at hx
      rcases hx with hx | hx
      · subst hx
        simp only [hi]
        have hrest : (relocate_section_loop P relinfo relocate prelocs view_address view_size n (i
            + 1) (reloc_at P (i + 1)) (relocate s c).2).diags.filter
            (fun d => decide (d.relnum = i)) = [] := by
          rw [List.filter_eq_nil_iff]; intro d hd
          have := relocate_section_loop_diags_mem P relinfo relocate prelocs view_address view_size
              n (i + 1) _ d hd
          simp; omega
        rw [hrest, List.append_nil]
        cases hr : (relocate s c).1
        · simp
        · rw [hr] at hgo
          simp only [Bool.true_and] at hgo
          simp only [hgo, if_true, Bool.false_eq_true, if_false]
          rw [List.filter_eq_self]
          intro d hd
          simpa using undefined_report_relnum relinfo.symtab i c.view c.sym d hd
      · have hb := (relocate_section_loop_calls_mem P relinfo relocate prelocs view_address
            view_size n (i + 1) _ x hx).1
        have hhead : (if (relocate s c).1 then undefined_report relinfo.symtab i c.view c.sym
            else []).filter (fun d => decide (d.relnum = x.1.i)) = [] := by
          rw [List.filter_eq_nil_iff]; intro d hd
          have : d.relnum = i := by
            cases hr : (relocate s c).1
            · rw [hr] at hd; simp at hd
            · rw [hr] at hd
              exact undefined_report_relnum relinfo.symtab i c.view c.sym d hd
          simp; omega
        rw [hhead, List.nil_append]
        exact ih (i + 1) _ x hx

/-- Every handle given to `resolve_forwards` was given by the pass of its own
record. -/
theorem relocate_section_loop_resolves_mem (n : Nat) : ∀ (i : Nat) (s : σ) (x : Nat × Sym),
    x ∈ (relocate_section_loop P relinfo relocate prelocs view_address view_size n i (reloc_at P i)
        s).resolves →
      (i ≤ x.1 ∧ x.1 < i + n) ∧
        ∃ c rs, relocate_operands P relinfo prelocs view_address view_size x.1 (reloc_at P x.1) =
            some (c, rs) ∧ x.2 ∈ rs := by
  induction n with
  | zero => intro i s x hx; simp [relocate_section_loop] at hx
  | succ n ih =>
    intro i s x hx
    rcases relocate_section_loop_cases P relinfo relocate prelocs view_address view_size i s with
      h | ⟨c, rs, h, hret, hbad⟩ | ⟨c, rs, h, hgo⟩
    · rw [relocate_section_loop_assert P relinfo relocate prelocs view_address view_size n i s h]
          at hx
      simp at hx
    · rw [relocate_section_loop_exit P relinfo relocate prelocs view_address view_size n i s c rs h
          hret hbad] at hx
      simp only [List.mem_map] at hx
      obtain ⟨g, hg, rfl⟩ := hx
      exact ⟨⟨Nat.le_refl _, by omega⟩, c, rs, h, hg⟩
    · rw [relocate_section_loop_continue P relinfo relocate prelocs view_address view_size n i s c
          rs h hgo] at hx
      simp only [List.mem_append, List.mem_map] at hx
      rcases hx with ⟨g, hg, rfl⟩ | hx
      · exact ⟨⟨Nat.le_refl _, by omega⟩, c, rs, h, hg⟩
      · have := ih (i + 1) _ x hx
        exact ⟨⟨by omega, by omega⟩, this.2⟩

/-- The first part of the loop body gives at most one handle to
`resolve_forwards`, and only a forwarder found in the entry of a global
record. -/
theorem relocate_operands_resolves (i : Nat) (c : Relocate_call Sym) (rs : List Sym)
    (h : relocate_operands P relinfo prelocs view_address view_size i (reloc_at P i) = some (c,
        rs)) :
    rs.length ≤ 1 ∧ ∀ g ∈ rs, relinfo.symtab.is_forwarder g = true ∧
      relinfo.local_symbol_count ≤ r_sym_at P prelocs i ∧
      relinfo.symbols (r_sym_at P prelocs i - relinfo.local_symbol_count) = some g := by
  have hs := relocate_operands_some P relinfo prelocs view_address view_size i c rs h
  by_cases hl : r_sym_at P prelocs i < relinfo.local_symbol_count
  · have := (hs.2.1 hl).2.2
    subst this
    simp
  · obtain ⟨g, hg, _, _, hrs⟩ := hs.2.2 (Nat.le_of_not_lt hl)
    subst hrs
    by_cases hf : relinfo.symtab.is_forwarder g = true
    · simp only [hf, if_true, List.length_singleton, List.mem_singleton, Nat.le_refl, true_and]
      intro g2 hg2; subst hg2
      exact ⟨hf, Nat.le_of_not_lt hl, hg⟩
    · simp [hf]

/-- The loop counters of the calls of `resolve_forwards` strictly increase. -/
theorem relocate_section_loop_resolves_sorted (n : Nat) : ∀ (i : Nat) (s : σ),
    ((relocate_section_loop P relinfo relocate prelocs view_address view_size n i (reloc_at P i)
        s).resolves.map Prod.fst).Pairwise (· < ·) := by
  induction n with
  | zero => intro i s; simp [relocate_section_loop]
  | succ n ih =>
    intro i s
    have hhead : ∀ (rs : List Sym), rs.length ≤ 1 →
        ((rs.map (Prod.mk i)).map Prod.fst).Pairwise (· < ·) := by
      intro rs hrs
      match rs, hrs with
      | [], _ => simp
      | [_], _ => simp
    rcases relocate_section_loop_cases P relinfo relocate prelocs view_address view_size i s with
      h | ⟨c, rs, h, hret, hbad⟩ | ⟨c, rs, h, hgo⟩
    · rw [relocate_section_loop_assert P relinfo relocate prelocs view_address view_size n i s h]
      simp
    · rw [relocate_section_loop_exit P relinfo relocate prelocs view_address view_size n i s c rs h
          hret hbad]
      exact hhead rs (relocate_operands_resolves P relinfo prelocs view_address view_size i c rs
          h).1
    · rw [relocate_section_loop_continue P relinfo relocate prelocs view_address view_size n i s c
          rs h hgo]
      simp only [List.map_append]
      rw [List.pairwise_append]
      refine ⟨hhead rs
        (relocate_operands_resolves P relinfo prelocs view_address view_size i c rs h).1,
        ih _ _, ?_⟩
      intro a ha b hb
      simp only [List.mem_map] at ha hb
      obtain ⟨y, ⟨g, _, rfl⟩, rfl⟩ := ha
      obtain ⟨x, hx, rfl⟩ := hb
      have := (relocate_section_loop_resolves_mem P relinfo relocate prelocs view_address view_size
          n (i + 1) _ x hx).1
      simp only []
      omega

/-- In `relocate_section` the record numbers given to `relocate.relocate` are
0, 1, 2, ... without a gap. -/
theorem relocate_section_positions (reloc_count : Nat) (s : σ) :
    relocate_positions (relocate_section P relinfo relocate prelocs reloc_count view_address
        view_size s) =
      List.range (relocate_section P relinfo relocate prelocs reloc_count view_address view_size
          s).calls.length := by
  unfold relocate_positions relocate_section
  have h := relocate_section_loop_positions P relinfo relocate prelocs view_address view_size
      reloc_count 0 s
  rw [reloc_at_zero] at h
  rw [h, List.range_eq_range']

/-- A list of length at most one that holds `x` is `[x]`. -/
theorem eq_singleton_of_mem_of_length_le_one {α : Type} (l : List α) (x : α) (hx : x ∈ l)
    (hl : l.length ≤ 1) : l = [x] := by
  match l, hx, hl with
  | [y], hx, _ => simp only [List.mem_singleton] at hx; rw [hx]
  | _ :: _ :: _, _, hl => simp at hl

/-- In `relocate_section` every record below the number of calls made was
given to `relocate.relocate` exactly once, with the operands of that record. -/
theorem relocate_section_calls_for (reloc_count : Nat) (s : σ) (k : Nat)
    (hk : k < (relocate_section P relinfo relocate prelocs reloc_count view_address view_size
        s).calls.length) :
    ∃ x, relocate_calls_for (relocate_section P relinfo relocate prelocs reloc_count view_address
        view_size s) k
        = [x] ∧
      x ∈ (relocate_section P relinfo relocate prelocs reloc_count view_address view_size s).calls ∧
      x.1.i = k ∧ ∃ rs, relocate_operands P relinfo prelocs view_address view_size k (reloc_at P k)
          = some (x.1, rs) := by
  have hpos := relocate_section_positions P relinfo relocate prelocs view_address view_size
      reloc_count s
  have hmem : k ∈ relocate_positions
      (relocate_section P relinfo relocate prelocs reloc_count view_address view_size s) := by
    rw [hpos]; exact List.mem_range.mpr hk
  unfold relocate_positions at hmem hpos
  obtain ⟨x, hx, hxk⟩ := List.mem_map.mp hmem
  have hsorted : ((relocate_section P relinfo relocate prelocs reloc_count view_address view_size
      s).calls.map
      (fun x => x.1.i)).Pairwise (· < ·) := by
    rw [hpos]; exact List.pairwise_lt_range _
  have hlen := filter_key_length_le_one (fun x : Relocate_call Sym × Bool => x.1.i) k _ hsorted
  have hxf : x ∈ relocate_calls_for
      (relocate_section P relinfo relocate prelocs reloc_count view_address view_size s) k := by
    unfold relocate_calls_for
    exact List.mem_filter.mpr ⟨hx, by simpa using hxk⟩
  refine ⟨x, eq_singleton_of_mem_of_length_le_one _ x hxf hlen, hx, hxk, ?_⟩
  have h := relocate_section_loop_calls_mem P relinfo relocate prelocs view_address view_size
      reloc_count 0 s
  rw [reloc_at_zero] at h
  have := (h x hx).2
  rw [hxk] at this
  exact this

/-- How `relocate_section` ends, and how far it got. -/
theorem relocate_section_outcome (reloc_count : Nat) (s : σ) :
    ((relocate_section P relinfo relocate prelocs reloc_count view_address view_size s).outcome =
        .returned →
      (relocate_section P relinfo relocate prelocs reloc_count view_address view_size
          s).calls.length = reloc_count ∧
      ∀ x ∈ (relocate_section P relinfo relocate prelocs reloc_count view_address view_size
          s).calls,
        ¬ (x.2 = true ∧ bad_offset x.1.view view_size = true)) ∧
    (∀ k, (relocate_section P relinfo relocate prelocs reloc_count view_address view_size
        s).outcome =
        .gold_exit_false k →
      k < reloc_count ∧
      (relocate_section P relinfo relocate prelocs reloc_count view_address view_size
          s).calls.length = k + 1 ∧
      (∃ x ∈ (relocate_section P relinfo relocate prelocs reloc_count view_address view_size
          s).calls,
        x.1.i = k ∧ x.2 = true ∧ bad_offset x.1.view view_size = true) ∧
      (∀ x ∈ (relocate_section P relinfo relocate prelocs reloc_count view_address view_size
          s).calls,
        x.2 = true → bad_offset x.1.view view_size = true → x.1.i = k) ∧
      Diagnostic.bad_offset k (offset_at P prelocs k) (to_size_t (offset_at P prelocs k)) ∈
        (relocate_section P relinfo relocate prelocs reloc_count view_address view_size s).diags) ∧
    (∀ k, (relocate_section P relinfo relocate prelocs reloc_count view_address view_size
        s).outcome =
        .assert_failed k →
      k < reloc_count ∧
      (relocate_section P relinfo relocate prelocs reloc_count view_address view_size
          s).calls.length = k ∧
      relocate_asserts P relinfo prelocs k ∧
      ∀ x ∈ (relocate_section P relinfo relocate prelocs reloc_count view_address view_size
          s).calls,
        ¬ (x.2 = true ∧ bad_offset x.1.view view_size = true)) := by
  have h := relocate_section_loop_outcome P relinfo relocate prelocs view_address view_size
      reloc_count 0 s
  rw [reloc_at_zero] at h
  unfold relocate_section
  obtain ⟨h1, h2, h3⟩ := h
  refine ⟨h1, fun k hk => ?_, fun k hk => ?_⟩
  · obtain ⟨hb, hl, hrest⟩ := h2 k hk
    exact ⟨by omega, by omega, hrest⟩
  · obtain ⟨hb, hl, hrest⟩ := h3 k hk
    exact ⟨by omega, by omega, hrest⟩

/-- The answer recorded with each call is the one the target gave in the state
left by the calls before it. -/
theorem relocate_section_loop_answers (n : Nat) : ∀ (i : Nat) (s : σ),
    (relocate_section_loop P relinfo relocate prelocs view_address view_size n i
        (reloc_at P i) s).calls =
      replay relocate s
        ((relocate_section_loop P relinfo relocate prelocs view_address view_size n i
          (reloc_at P i) s).calls.map Prod.fst) := by
  induction n with
  | zero => intro i s; simp [relocate_section_loop, replay]
  | succ n ih =>
    intro i s
    rcases relocate_section_loop_cases P relinfo relocate prelocs view_address view_size i s with
      h | ⟨c, rs, h, hret, hbad⟩ | ⟨c, rs, h, hgo⟩
    · rw [relocate_section_loop_assert P relinfo relocate prelocs view_address view_size n i s h]
      simp [replay]
    · rw [relocate_section_loop_exit P relinfo relocate prelocs view_address view_size n i s c rs
        h hret hbad]
      simp [replay, hret]
    · rw [relocate_section_loop_continue P relinfo relocate prelocs view_address view_size n i s
        c rs h hgo]
      simp only [List.map_cons, replay, List.cons.injEq, true_and]
      exact ih (i + 1) _

end relocate_lemmas

/-! ## Properties of scan_relocs -/

theorem in_discarded_section_iff (incl : Nat → Bool) (shndx : Nat) :
    in_discarded_section incl shndx = true ↔
      (shndx < elfcpp.SHN_LORESERVE ∧ shndx ≠ elfcpp.SHN_UNDEF ∧ incl shndx = false) := by
  simp [in_discarded_section, and_assoc]

theorem lsym_offset_eq (size : elfcpp.Size) (r_sym : Nat)
    (h : r_sym * elfcpp.sym_size size < 2 ^ UINT_BITS) :
    lsym_offset size r_sym = r_sym * elfcpp.sym_size size := by
  unfold lsym_offset; exact Nat.mod_eq_of_lt h

/-- C1 (as stated, refuted): in `ex_scan_args_null_first` record 1 is local
(symbol 0 < local_count 2), its symbol lies in the included section 1, so it is
not skipped for a discarded section; yet the trace holds no call for it,
because the scan stopped at record 0 on the assertion `gsym != NULL`. -/
theorem scan_relocs_classification_counterexample :
    r_sym_at ex_params ex_scan_args_null_first.prelocs 1 < ex_scan_args_null_first.local_count ∧
    in_discarded_section ex_scan_args_null_first.is_section_included
      (shndx_at ex_params ex_scan_args_null_first.prelocs ex_local_syms 1) = false ∧
    scan_calls_for (scan_relocs ex_params ex_scan_args_null_first) 1 = [] ∧
    (scan_relocs ex_params ex_scan_args_null_first).outcome =
      .assert_failed 0 .gsym_not_null := by
  decide

/-- C1 (as amended): for every record list and every local_count, every record
`k` that the scan gets to (no earlier record trips an assertion) is classified
by `r_sym < local_count`.  A local record, with `plocal_syms` non-null and its
symbol outside a discarded section, causes exactly one call, `scan.local`, with
the record, the decoded type and the local symbol entry number `r_sym` (the
view at byte `r_sym * sym_size`, whose section index is the one the skip test
read), as long as `r_sym * sym_size` fits an `unsigned int`.  A global record
with a non-null entry causes exactly one call, `scan.global`, with the record,
the decoded type and the handle got from `global_syms[r_sym - local_count]`
(after the forwarder test).  No record causes more than one call, so none
causes both. -/
theorem scan_relocs_classification {Sym : Type} (P : Params) (A : Scan_args Sym) (k : Nat)
    (hk : k < A.reloc_count) (hreach : ∀ j, j < k → ¬ scan_asserts P A j) :
    (∀ syms, r_sym_at P A.prelocs k < A.local_count → A.plocal_syms = some syms →
      in_discarded_section A.is_section_included (shndx_at P A.prelocs syms k) = false →
      r_sym_at P A.prelocs k * elfcpp.sym_size P.size < 2 ^ UINT_BITS →
      scan_calls_for (scan_relocs P A) k =
          [.local_ (reloc_at P k) (r_type_at P A.prelocs k)
            (r_sym_at P A.prelocs k * elfcpp.sym_size P.size)] ∧
        shndx_at P A.prelocs syms k = elfcpp.get_st_shndx P.size P.big_endian syms
          (r_sym_at P A.prelocs k * elfcpp.sym_size P.size)) ∧
    (∀ g, A.local_count ≤ r_sym_at P A.prelocs k →
      A.global_syms (r_sym_at P A.prelocs k - A.local_count) = some g →
      scan_calls_for (scan_relocs P A) k =
        [.global (reloc_at P k) (r_type_at P A.prelocs k) (resolved A.symtab g)]) ∧
    (∀ j, (scan_calls_for (scan_relocs P A) j).length ≤ 1) := by
  refine ⟨fun syms hloc hs hd hfit => ?_, fun g hglob hg => ?_, fun j => ?_⟩
  · rw [scan_calls_for_eq P A k hk hreach, scan_reloc_local P A k syms hloc hs hd]
    unfold shndx_at
    rw [lsym_offset_eq P.size _ hfit]
    exact ⟨rfl, rfl⟩
  · rw [scan_calls_for_eq P A k hk hreach]
    exact (scan_reloc_global P A k g hglob hg).1
  · unfold scan_calls_for scan_relocs
    rw [List.length_map]
    have h := scan_relocs_loop_positions_sorted P A A.reloc_count 0
    rw [reloc_at_zero] at h
    exact filter_key_length_le_one Prod.fst j _ h

/-- C1, witness: in `ex_scan_args` record 1 is reached (record 0 trips no
assertion) and is global with the non-null entry 10; record 0 is local in the
included section 1. -/
theorem scan_relocs_classification_witness :
    scan_calls_for (scan_relocs ex_params ex_scan_args) 1 = [.global 8 2 10] ∧
    scan_calls_for (scan_relocs ex_params ex_scan_args) 0 = [.local_ 0 1 0] :=
  ⟨(scan_relocs_classification ex_params ex_scan_args 1 (by decide)
      (fun j hj => by
        have hj0 : j = 0 := by omega
        subst hj0
        decide)).2.1 10 (by decide) (by decide),
   ((scan_relocs_classification ex_params ex_scan_args 0 (by decide)
      (fun j hj => absurd hj (Nat.not_lt_zero j))).1 ex_local_syms (by decide) rfl
        (by decide) (by decide)).1⟩

/-- C2 (as stated, refuted): in `ex_scan_args_null_first` record 1 is local and
produces no call on the `Scan` object, although the section index of its local
symbol (symbol 0, section 1) is a regular one and `is_section_included(1)` is
true: the scan stopped at record 0 on the assertion `gsym != NULL`. -/
theorem scan_relocs_discard_skip_counterexample :
    r_sym_at ex_params ex_scan_args_null_first.prelocs 1 < ex_scan_args_null_first.local_count ∧
    scan_calls_for (scan_relocs ex_params ex_scan_args_null_first) 1 = [] ∧
    local_symbol_shndx ex_params ex_local_syms
      (r_sym_at ex_params ex_scan_args_null_first.prelocs 1) = 1 ∧
    ex_scan_args_null_first.is_section_included 1 = true ∧
    ¬ (local_symbol_shndx ex_params ex_local_syms
          (r_sym_at ex_params ex_scan_args_null_first.prelocs 1) < elfcpp.SHN_LORESERVE ∧
        local_symbol_shndx ex_params ex_local_syms
          (r_sym_at ex_params ex_scan_args_null_first.prelocs 1) ≠ elfcpp.SHN_UNDEF ∧
        ex_scan_args_null_first.is_section_included
          (local_symbol_shndx ex_params ex_local_syms
            (r_sym_at ex_params ex_scan_args_null_first.prelocs 1)) = false) := by
  decide

/-- C2 (as amended): for a record `k` with `r_sym < local_count` that the scan
gets to (no earlier record trips an assertion), with `plocal_syms` non-null and
the product `r_sym * sym_size` fitting an `unsigned int`: the record produces
no call on the `Scan` object (neither local nor global) if and only if the
section index of its local symbol (entry number `r_sym` of the local symbol
table) is below `SHN_LORESERVE`, is not `SHN_UNDEF`, and
`is_section_included` of that index is false; in every other case (section
included, section index `SHN_UNDEF`, or section index reserved) `scan.local`
is called, exactly once and with that entry, whatever the inclusion state. -/
theorem scan_relocs_discard_skip {Sym : Type} (P : Params) (A : Scan_args Sym) (k : Nat)
    (hk : k < A.reloc_count) (hreach : ∀ j, j < k → ¬ scan_asserts P A j)
    (syms : Mem) (hs : A.plocal_syms = some syms)
    (hloc : r_sym_at P A.prelocs k < A.local_count)
    (hfit : r_sym_at P A.prelocs k * elfcpp.sym_size P.size < 2 ^ UINT_BITS) :
    (scan_calls_for (scan_relocs P A) k = [] ↔
      (local_symbol_shndx P syms (r_sym_at P A.prelocs k) < elfcpp.SHN_LORESERVE ∧
        local_symbol_shndx P syms (r_sym_at P A.prelocs k) ≠ elfcpp.SHN_UNDEF ∧
        A.is_section_included (local_symbol_shndx P syms (r_sym_at P A.prelocs k)) = false)) ∧
    ((A.is_section_included (local_symbol_shndx P syms (r_sym_at P A.prelocs k)) = true ∨
        local_symbol_shndx P syms (r_sym_at P A.prelocs k) = elfcpp.SHN_UNDEF ∨
        elfcpp.SHN_LORESERVE ≤ local_symbol_shndx P syms (r_sym_at P A.prelocs k)) →
      scan_calls_for (scan_relocs P A) k =
        [.local_ (reloc_at P k) (r_type_at P A.prelocs k)
          (r_sym_at P A.prelocs k * elfcpp.sym_size P.size)]) := by
  have hoff := lsym_offset_eq P.size (r_sym_at P A.prelocs k) hfit
  have hshndx : shndx_at P A.prelocs syms k =
      local_symbol_shndx P syms (r_sym_at P A.prelocs k) := by
    unfold shndx_at local_symbol_shndx
    rw [hoff]
  rw [scan_calls_for_eq P A k hk hreach, ← in_discarded_section_iff, ← hshndx, ← hoff]
  cases hd : in_discarded_section A.is_section_included (shndx_at P A.prelocs syms k) with
  | true =>
    rw [scan_reloc_discarded P A k syms hloc hs hd]
    refine ⟨by simp, fun h => ?_⟩
    have := (in_discarded_section_iff _ _).mp hd
    rcases h with h | h | h
    · rw [this.2.2] at h; cases h
    · exact absurd h this.2.1
    · exact absurd this.1 (Nat.not_lt.mpr h)
  | false =>
    rw [scan_reloc_local P A k syms hloc hs hd]
    exact ⟨by simp, fun _ => rfl⟩

/-- C2, witness: in `ex_scan_args` record 2 is reached, is local (symbol 1) and
its symbol lies in the discarded section 2, so nothing is called for it;
record 0 is local in the included section 1, so `scan.local` is called. -/
theorem scan_relocs_discard_skip_witness :
    scan_calls_for (scan_relocs ex_params ex_scan_args) 2 = [] ∧
    scan_calls_for (scan_relocs ex_params ex_scan_args) 0 = [.local_ 0 1 0] :=
  ⟨(scan_relocs_discard_skip ex_params ex_scan_args 2 (by decide)
      (fun j hj => by
        have hj0 : j = 0 ∨ j = 1 := by omega
        rcases hj0 with rfl | rfl <;> decide)
      ex_local_syms rfl (by decide) (by decide)).1.mpr (by decide),
   (scan_relocs_discard_skip ex_params ex_scan_args 0 (by decide)
      (fun j hj => absurd hj (Nat.not_lt_zero j))
      ex_local_syms rfl (by decide) (by decide)).2 (Or.inl (by decide))⟩

/-- C10 (as stated, refuted): in `ex_scan_args_no_local_table` every entry of
`global_syms` is non-null, and yet the scan fails: its only record is local and
`plocal_syms` is null, so `assert(plocal_syms != NULL)` stops it. -/
theorem scan_relocs_failure_counterexample :
    (∀ k, ex_scan_args_no_local_table.global_syms k ≠ none) ∧
    (scan_relocs ex_params ex_scan_args_no_local_table).outcome =
      .assert_failed 0 .plocal_syms_not_null ∧
    (scan_relocs ex_params ex_scan_args_no_local_table).outcome ≠ .returned :=
  ⟨fun _ h => Option.noConfusion h, by decide, by decide⟩

/-- C10 (as amended): `scan_relocs` fails (a fatal assertion) if and only if it
reaches a record that is global with a null entry
`global_syms[r_sym - local_count]`, or that is local while `plocal_syms` is
null; it fails at the first such record `k`, on the assertion that belongs to
the kind of the record.  When no record is of that sort, in particular when
`plocal_syms` is non-null and all entries asked for are non-null, it returns,
whatever the other inputs are. -/
theorem scan_relocs_failure {Sym : Type} (P : Params) (A : Scan_args Sym) :
    (∀ k, (∃ a, (scan_relocs P A).outcome = .assert_failed k a) ↔
      (k < A.reloc_count ∧ (∀ j, j < k → ¬ scan_asserts P A j) ∧ scan_asserts P A k)) ∧
    (∀ k, (scan_relocs P A).outcome = .assert_failed k .gsym_not_null →
      A.local_count ≤ r_sym_at P A.prelocs k ∧
        A.global_syms (r_sym_at P A.prelocs k - A.local_count) = none) ∧
    (∀ k, (scan_relocs P A).outcome = .assert_failed k .plocal_syms_not_null →
      r_sym_at P A.prelocs k < A.local_count ∧ A.plocal_syms = none) ∧
    ((scan_relocs P A).outcome = .returned ↔
      ∀ j, j < A.reloc_count → ¬ scan_asserts P A j) ∧
    (A.plocal_syms ≠ none →
      (∀ j, j < A.reloc_count → A.local_count ≤ r_sym_at P A.prelocs j →
        A.global_syms (r_sym_at P A.prelocs j - A.local_count) ≠ none) →
      (scan_relocs P A).outcome = .returned) := by
  have hout := scan_relocs_loop_outcome P A A.reloc_count 0
  rw [reloc_at_zero] at hout
  obtain ⟨h1, h2⟩ := hout
  have hwhich : ∀ k a, (scan_relocs P A).outcome = .assert_failed k a →
      (scan_reloc P A (reloc_at P k)).failed = some a := fun k a h => ((h1 k a).mp h).2.2
  have hret : (scan_relocs P A).outcome = .returned ↔
      ∀ j, j < A.reloc_count → ¬ scan_asserts P A j := by
    unfold scan_relocs
    rw [h2]
    constructor
    · intro h j hj; exact (scan_reloc_ok_iff P A j).mp (h j (Nat.zero_le _) (by omega))
    · intro h j _ hj; exact (scan_reloc_ok_iff P A j).mpr (h j (by omega))
  refine ⟨fun k => ?_, fun k h => ?_, fun k h => ?_, hret, fun hp hg => ?_⟩
  · constructor
    · rintro ⟨a, ha⟩
      obtain ⟨⟨_, hk⟩, hre, hf⟩ := (h1 k a).mp ha
      refine ⟨by omega, fun j hj => (scan_reloc_ok_iff P A j).mp (hre j (Nat.zero_le _) hj), ?_⟩
      exact (scan_reloc_failed_iff P A k).mp (by rw [hf]; simp)
    · rintro ⟨hk, hre, hf⟩
      have hne := (scan_reloc_failed_iff P A k).mpr hf
      cases hfa : (scan_reloc P A (reloc_at P k)).failed with
      | none => exact absurd hfa hne
      | some a =>
        exact ⟨a, (h1 k a).mpr ⟨⟨Nat.zero_le _, by omega⟩,
          fun j _ hj => (scan_reloc_ok_iff P A j).mpr (hre j hj), hfa⟩⟩
  · rcases scan_reloc_failed_which P A k _ (hwhich k _ h) with ⟨ha, _⟩ | ⟨_, hb⟩
    · cases ha
    · exact hb
  · rcases scan_reloc_failed_which P A k _ (hwhich k _ h) with ⟨_, hb⟩ | ⟨ha, _⟩
    · exact hb
    · cases ha
  · rw [hret]
    intro j hj hfail
    rcases hfail with ⟨_, hn⟩ | ⟨hglob, hn⟩
    · exact hp hn
    · exact hg j hj hglob hn

/-- C10, witness: the scan of `ex_scan_args` (non-null `plocal_syms`, the one
global record has the non-null entry 10) returns. -/
theorem scan_relocs_failure_witness :
    (scan_relocs ex_params ex_scan_args).outcome = .returned :=
  (scan_relocs_failure ex_params ex_scan_args).2.2.2.2 (by simp [ex_scan_args])
    (fun j hj _ => by
      have hj0 : j = 0 ∨ j = 1 ∨ j = 2 := by
        have : j < 3 := hj
        omega
      rcases hj0 with rfl | rfl | rfl <;> decide)

/-! ## Properties of relocate_section -/

theorem bad_offset_iff (offset view_size : Int) :
    bad_offset offset view_size = true ↔ (offset < 0 ∨ view_size ≤ offset) := by
  simp [bad_offset]

/-- The handle left after the forwarder test is no forwarder, as soon as
`resolve_forwards` sends forwarders to symbols that are not. -/
theorem resolved_not_forwarder {Sym : Type} (T : Symbol_table Sym)
    (hT : ∀ h, T.is_forwarder h = true → T.is_forwarder (T.resolve_forwards h) = false)
    (g : Sym) : T.is_forwarder (resolved T g) = false := by
  unfold resolved
  by_cases hf : T.is_forwarder g = true
  · simp only [hf, if_true]; exact hT g hf
  · simp only [hf]; simpa using hf

/-- C3 (as stated, refuted): in the three-record scenario (`ex_relocs` with
`ex_scan_args` and `ex_relinfo`) record 2 refers to local symbol 1, whose
section 2 is discarded, and the scan skips it; yet `relocate_section` gives it
to `relocate.relocate` once (null symbol, value 0, destination offset 8), as it
does records 0 and 1, and the target writes at offset 8. -/
theorem relocate_section_discard_counterexample :
    r_sym_at ex_params ex_relocs 2 < ex_scan_args.local_count ∧
    in_discarded_section ex_included (shndx_at ex_params ex_relocs ex_local_syms 2) = true ∧
    scan_calls_for (scan_relocs ex_params ex_scan_args) 2 = [] ∧
    relocate_calls_for
        (relocate_section ex_params ex_relinfo ex_relocate ex_relocs 3 0x8000 16 []) 2 =
      [(⟨2, 16, 1, none, 0, 8, 0x8008, 16⟩, true)] ∧
    relocate_positions
        (relocate_section ex_params ex_relinfo ex_relocate ex_relocs 3 0x8000 16 []) =
      [0, 1, 2] ∧
    (relocate_section ex_params ex_relinfo ex_relocate ex_relocs 3 0x8000 16 []).state =
      [0, 4, 8] := by
  decide

/-- C3 (as amended): `relocate_section` has no discard skip.  For every record
list, a record `k` that refers to a local symbol whose section is marked
discarded (and which `scan_relocs` therefore skips when it gets to it) is given
to `relocate.relocate` exactly once whenever the run `R` does not stop before
it, with a null symbol and the value `local_values[r_sym]`; the section data
and target state at the end are those left by the calls of `relocate.relocate`
made, in order, and by nothing else.  (In the three-record scenario each of
(a), (b), (c) yields one call.) -/
theorem relocate_section_no_discard_skip {σ Sym : Type} (P : Params) (A : Scan_args Sym)
    (relinfo : Relocate_info Sym) (relocate : Relocate σ Sym) (view_address : Nat)
    (view_size : Int) (s : σ) (k : Nat) (syms : Mem) (R : Relocate_result σ Sym)
    (hR : R = relocate_section P relinfo relocate A.prelocs A.reloc_count view_address
      view_size s)
    (hk : k < A.reloc_count)
    (hcount : relinfo.local_symbol_count = A.local_count)
    (hloc : r_sym_at P A.prelocs k < A.local_count)
    (hs : A.plocal_syms = some syms)
    (hd : in_discarded_section A.is_section_included (shndx_at P A.prelocs syms k) = true)
    (hreach : ∀ j, (R.outcome = .gold_exit_false j ∨ R.outcome = .assert_failed j) → k ≤ j) :
    ((∀ j, j < k → ¬ scan_asserts P A j) → scan_calls_for (scan_relocs P A) k = []) ∧
    (∃ ret, relocate_calls_for R k =
      [(⟨k, reloc_at P k, r_type_at P A.prelocs k, none,
          relinfo.values (r_sym_at P A.prelocs k), offset_at P A.prelocs k,
          to_Elf_Addr P.size ((view_address : Int) + offset_at P A.prelocs k), view_size⟩,
        ret)]) ∧
    R.state = R.calls.foldl (fun t x => (relocate t x.1).2) s := by
  subst hR
  have hloc2 : r_sym_at P A.prelocs k < relinfo.local_symbol_count := by rw [hcount]; exact hloc
  have hout := relocate_section_outcome P relinfo relocate A.prelocs view_address view_size
    A.reloc_count s
  have hlen : k < (relocate_section P relinfo relocate A.prelocs A.reloc_count view_address
      view_size s).calls.length := by
    cases ho : (relocate_section P relinfo relocate A.prelocs A.reloc_count view_address
        view_size s).outcome with
    | returned => rw [(hout.1 ho).1]; exact hk
    | gold_exit_false j =>
      have := hreach j (Or.inl ho)
      rw [(hout.2.1 j ho).2.1]; omega
    | assert_failed j =>
      have hkj := hreach j (Or.inr ho)
      obtain ⟨_, hl, hass, _⟩ := hout.2.2 j ho
      have hne : k ≠ j := by
        intro h; subst h
        exact absurd hloc2 (Nat.not_lt.mpr hass.1)
      rw [hl]; omega
  refine ⟨fun hre => ?_, ?_, ?_⟩
  · rw [scan_calls_for_eq P A k hk hre]
    exact scan_reloc_discarded P A k syms hloc hs hd
  · obtain ⟨x, hx, _, hxk, rs, hops⟩ := relocate_section_calls_for P relinfo relocate A.prelocs
      view_address view_size A.reloc_count s k hlen
    obtain ⟨⟨h1, h2, h3, h4, h5, h6⟩, hl, _⟩ :=
      relocate_operands_some P relinfo A.prelocs view_address view_size k x.1 rs hops
    obtain ⟨h7, h8, _⟩ := hl hloc2
    refine ⟨x.2, ?_⟩
    rw [hx]
    obtain ⟨c, ret⟩ := x
    obtain ⟨ci, creloc, ctype, csym, cvalue, cview, caddr, csize⟩ := c
    simp only at h1 h2 h3 h4 h5 h6 h7 h8
    subst h1 h2 h3 h4 h5 h6 h7 h8
    rfl
  · unfold relocate_section
    have h := relocate_section_loop_state P relinfo relocate A.prelocs view_address view_size
      A.reloc_count 0 s
    rw [reloc_at_zero] at h
    exact h

/-- C3, witness: the three-record scenario at record 2, the local record in the
discarded section 2. -/
theorem relocate_section_no_discard_skip_witness :
    ∃ ret, relocate_calls_for
        (relocate_section ex_params ex_relinfo ex_relocate ex_relocs 3 0x8000 16 []) 2 =
      [(⟨2, 16, 1, none, 0, 8, 0x8008, 16⟩, ret)] :=
  (relocate_section_no_discard_skip ex_params ex_scan_args ex_relinfo ex_relocate 0x8000 16 []
    2 ex_local_syms _ rfl (by decide) rfl (by decide) rfl (by decide)
    (fun j hj => by
      have ho : (relocate_section ex_params ex_relinfo ex_relocate ex_scan_args.prelocs
          ex_scan_args.reloc_count 0x8000 16 []).outcome = .returned := by decide
      rw [ho] at hj
      rcases hj with hj | hj <;> cases hj)).2.1

/-- C4: assume `resolve_forwards` sends every forwarder to a symbol that is not
a forwarder.  Then the handle `scan_relocs` gives to `scan.global` and the
symbol `relocate_section` gives to `relocate.relocate` (in its run `R`) is
never a forwarder: it is the entry `h` looked up at `r_sym - local_count` when
`h` is no forwarder and `resolve_forwards(h)` otherwise; and `resolve_forwards`
is called only on forwarders (the entry of the record) and at most once in the
pass of a record. -/
theorem forwarder_resolution {σ Sym : Type} (P : Params) (A : Scan_args Sym)
    (relinfo : Relocate_info Sym) (relocate : Relocate σ Sym) (prelocs : Mem)
    (reloc_count view_address : Nat) (view_size : Int) (s : σ) (R : Relocate_result σ Sym)
    (hR : R = relocate_section P relinfo relocate prelocs reloc_count view_address view_size s)
    (hA : ∀ h, A.symtab.is_forwarder h = true →
      A.symtab.is_forwarder (A.symtab.resolve_forwards h) = false)
    (hT : ∀ h, relinfo.symtab.is_forwarder h = true →
      relinfo.symtab.is_forwarder (relinfo.symtab.resolve_forwards h) = false) :
    (∀ x ∈ (scan_relocs P A).calls, ∀ reloc r_type g, x.2 = .global reloc r_type g →
      A.symtab.is_forwarder g = false ∧
      ∃ h, A.global_syms (r_sym_at P A.prelocs x.1 - A.local_count) = some h ∧
        g = (if A.symtab.is_forwarder h then A.symtab.resolve_forwards h else h)) ∧
    (∀ x ∈ R.calls, ∀ g, x.1.sym = some g →
      relinfo.symtab.is_forwarder g = false ∧
      ∃ h, relinfo.symbols (r_sym_at P prelocs x.1.i - relinfo.local_symbol_count) = some h ∧
        g = (if relinfo.symtab.is_forwarder h then relinfo.symtab.resolve_forwards h else h)) ∧
    (∀ y ∈ (scan_relocs P A).resolves, A.symtab.is_forwarder y.2 = true ∧
      A.global_syms (r_sym_at P A.prelocs y.1 - A.local_count) = some y.2) ∧
    (∀ k, ((scan_relocs P A).resolves.filter (fun y => decide (y.1 = k))).length ≤ 1) ∧
    (∀ y ∈ R.resolves, relinfo.symtab.is_forwarder y.2 = true ∧
      relinfo.symbols (r_sym_at P prelocs y.1 - relinfo.local_symbol_count) = some y.2) ∧
    (∀ k, (R.resolves.filter (fun y => decide (y.1 = k))).length ≤ 1) := by
  subst hR
  have hsc := scan_relocs_loop_calls_mem P A A.reloc_count 0
  have hsr := scan_relocs_loop_resolves_mem P A A.reloc_count 0
  have hss := scan_relocs_loop_resolves_sorted P A A.reloc_count 0
  have hrc := relocate_section_loop_calls_mem P relinfo relocate prelocs view_address view_size
    reloc_count 0 s
  have hrr := relocate_section_loop_resolves_mem P relinfo relocate prelocs view_address
    view_size reloc_count 0 s
  have hrs := relocate_section_loop_resolves_sorted P relinfo relocate prelocs view_address
    view_size reloc_count 0 s
  rw [reloc_at_zero] at hsc hsr hss hrc hrr hrs
  refine ⟨fun x hx reloc r_type g hg => ?_, fun x hx g hg => ?_, fun y hy => ?_, fun k => ?_,
    fun y hy => ?_, fun k => ?_⟩
  · have hmem := (hsc x hx).2
    rcases scan_reloc_calls_mem P A x.1 x.2 hmem with ⟨_, hl⟩ | ⟨_, h, hh, hc⟩
    · rw [hl] at hg; cases hg
    · rw [hc] at hg
      simp only [Scan_call.global.injEq] at hg
      obtain ⟨_, _, rfl⟩ := hg
      exact ⟨resolved_not_forwarder A.symtab hA h, h, hh, rfl⟩
  · obtain ⟨rs, hops⟩ := (hrc x hx).2
    obtain ⟨_, hl, hglob⟩ :=
      relocate_operands_some P relinfo prelocs view_address view_size x.1.i x.1 rs hops
    by_cases hloc : r_sym_at P prelocs x.1.i < relinfo.local_symbol_count
    · rw [(hl hloc).1] at hg; cases hg
    · obtain ⟨h, hh, hsym, _, _⟩ := hglob (Nat.le_of_not_lt hloc)
      rw [hsym] at hg
      simp only [Option.some.injEq] at hg
      subst hg
      exact ⟨resolved_not_forwarder relinfo.symtab hT h, h, hh, rfl⟩
  · have := scan_reloc_resolves_mem P A y.1 y.2 (hsr y hy).2
    exact ⟨this.2.2, this.2.1⟩
  · exact filter_key_length_le_one Prod.fst k _ hss
  · obtain ⟨c, rs, hops, hmem⟩ := (hrr y hy).2
    have := (relocate_operands_resolves P relinfo prelocs view_address view_size y.1 c rs
      hops).2 y.2 hmem
    exact ⟨this.1, this.2.2⟩
  · exact filter_key_length_le_one Prod.fst k _ hrs

/-- C4, witness: in `ex_symtab` the only forwarder is 20 and it resolves to 21,
which is none; record 1 of `ex_relocs_globals` refers to the entry 20, and
`relocate_section` hands over 21. -/
theorem forwarder_resolution_witness :
    ex_symtab.is_forwarder 21 = false ∧
    (∃ h, ex_global_syms (r_sym_at ex_params ex_relocs_globals 1 - 2) = some h ∧
      21 = (if ex_symtab.is_forwarder h then ex_symtab.resolve_forwards h else h)) :=
  have hT : ∀ h, ex_symtab.is_forwarder h = true →
      ex_symtab.is_forwarder (ex_symtab.resolve_forwards h) = false := by
    intro h hh
    have h20 : h = 20 := by simpa [ex_symtab] using hh
    subst h20
    decide
  (forwarder_resolution ex_params ex_scan_args_globals ex_relinfo ex_relocate ex_relocs_globals
    4 0x8000 16 [] _ rfl hT hT).2.1 (⟨1, 8, 2, some 21, 2100, 4, 0x8004, 16⟩, true) (by decide)
    21 rfl

/-- C6: for every record for which `relocate.relocate` answered true (in the
run `R` of `relocate_section`) and whose offset lies in `[0, view_size)`,
exactly one message is printed for that record, the undefined-reference report
(with the name of the symbol), if the symbol is non-null, `is_undefined()`
holds and its binding is not `STB_WEAK`; and nothing is printed for that record
if the symbol is null (a local record), is defined, or is weak. -/
theorem relocate_section_undefined_diagnosis {σ Sym : Type} (P : Params)
    (relinfo : Relocate_info Sym) (relocate : Relocate σ Sym) (prelocs : Mem)
    (reloc_count view_address : Nat) (view_size : Int) (s : σ) (R : Relocate_result σ Sym)
    (hR : R = relocate_section P relinfo relocate prelocs reloc_count view_address view_size s)
    (x : Relocate_call Sym × Bool) (hx : x ∈ R.calls) (hret : x.2 = true)
    (h0 : 0 ≤ x.1.view) (h1 : x.1.view < view_size) :
    (∀ g, x.1.sym = some g → relinfo.symtab.is_undefined g = true →
      relinfo.symtab.binding g ≠ elfcpp.STB_WEAK →
      diags_for R x.1.i = [.undefined_reference x.1.i x.1.view (relinfo.symtab.name g)]) ∧
    (x.1.sym = none → diags_for R x.1.i = []) ∧
    (∀ g, x.1.sym = some g →
      (relinfo.symtab.is_undefined g = false ∨ relinfo.symtab.binding g = elfcpp.STB_WEAK) →
      diags_for R x.1.i = []) := by
  subst hR
  have h := relocate_section_loop_diags_filter P relinfo relocate prelocs view_address view_size
    reloc_count 0 s
  rw [reloc_at_zero] at h
  have hf := h x hx
  have hb : bad_offset x.1.view view_size = false := by
    cases hbb : bad_offset x.1.view view_size with
    | false => rfl
    | true =>
      rcases (bad_offset_iff _ _).mp hbb with h2 | h2 <;> omega
  simp only [hret, hb, if_true, Bool.false_eq_true, if_false] at hf
  unfold diags_for relocate_section
  rw [hf]
  refine ⟨fun g hg hu hw => ?_, fun hn => ?_, fun g hg hor => ?_⟩
  · rw [hg]; simp [undefined_report, hu, hw]
  · rw [hn]; simp [undefined_report]
  · rw [hg]
    rcases hor with hu | hw
    · simp [undefined_report, hu]
    · simp [undefined_report, hw]

/-- C6, witness: in `ex_relocs_globals` (all offsets in range, the target
answers true) the record against the undefined global handle 10 gets the one
report, and the record against the undefined weak handle 11 gets none. -/
theorem relocate_section_undefined_diagnosis_witness :
    diags_for (relocate_section ex_params ex_relinfo ex_relocate ex_relocs_globals 4 0x8000 16
        []) 0 = [.undefined_reference 0 0 "missing"] ∧
    diags_for (relocate_section ex_params ex_relinfo ex_relocate ex_relocs_globals 4 0x8000 16
        []) 2 = [] :=
  ⟨(relocate_section_undefined_diagnosis ex_params ex_relinfo ex_relocate ex_relocs_globals 4
      0x8000 16 [] _ rfl (⟨0, 0, 2, some 10, 1000, 0, 0x8000, 16⟩, true) (by decide) rfl
      (by decide) (by decide)).1 10 rfl (by decide) (by decide),
   (relocate_section_undefined_diagnosis ex_params ex_relinfo ex_relocate ex_relocs_globals 4
      0x8000 16 [] _ rfl (⟨2, 16, 2, some 11, 1100, 8, 0x8008, 16⟩, true) (by decide) rfl
      (by decide) (by decide)).2.2 11 rfl (Or.inr (by decide))⟩

/-- C7 (as stated, refuted): with `ex_relocs_null_second` no record triggers
the bounds failure (the one call made has offset 0 < 16), and yet the run does
not return and `relocate.relocate` is called for one of the two records only:
record 1 is global with a null entry and stops the run on the assertion
`gsym != NULL`. -/
theorem relocate_section_continues_counterexample :
    (∀ x ∈ (relocate_section ex_params ex_relinfo ex_relocate ex_relocs_null_second 2 0x8000 16
        []).calls, ¬ (x.2 = true ∧ (x.1.view < 0 ∨ (16 : Int) ≤ x.1.view))) ∧
    (relocate_section ex_params ex_relinfo ex_relocate ex_relocs_null_second 2 0x8000 16
      []).outcome = .assert_failed 1 ∧
    relocate_positions (relocate_section ex_params ex_relinfo ex_relocate ex_relocs_null_second
      2 0x8000 16 []) = [0] := by
  decide

/-- C7 (as amended): for every record list in which no record triggers the
bounds failure and no global record has a null entry in the symbol array, the
run `R` of `relocate_section` returns and has called `relocate.relocate` on all
`reloc_count` records, once each and in order, however many undefined-reference
reports it printed on the way. -/
theorem relocate_section_continues {σ Sym : Type} (P : Params) (relinfo : Relocate_info Sym)
    (relocate : Relocate σ Sym) (prelocs : Mem) (reloc_count view_address : Nat)
    (view_size : Int) (s : σ) (R : Relocate_result σ Sym)
    (hR : R = relocate_section P relinfo relocate prelocs reloc_count view_address view_size s)
    (hnon : ∀ k, k < reloc_count → ¬ relocate_asserts P relinfo prelocs k)
    (hbounds : ∀ x ∈ R.calls, ¬ (x.2 = true ∧ (x.1.view < 0 ∨ view_size ≤ x.1.view))) :
    R.outcome = .returned ∧ relocate_positions R = List.range reloc_count := by
  subst hR
  have hout := relocate_section_outcome P relinfo relocate prelocs view_address view_size
    reloc_count s
  have hpos := relocate_section_positions P relinfo relocate prelocs view_address view_size
    reloc_count s
  simp only [← bad_offset_iff] at hbounds
  generalize relocate_section P relinfo relocate prelocs reloc_count view_address view_size s
    = R at hout hpos hbounds ⊢
  have hret : R.outcome = .returned := by
    cases ho : R.outcome with
    | returned => rfl
    | gold_exit_false j =>
      obtain ⟨_, _, ⟨x, hx, _, hx2, hx3⟩, _⟩ := hout.2.1 j ho
      exact absurd ⟨hx2, hx3⟩ (hbounds x hx)
    | assert_failed j =>
      obtain ⟨hj, _, hass, _⟩ := hout.2.2 j ho
      exact absurd hass (hnon j hj)
  refine ⟨hret, ?_⟩
  rw [hpos, (hout.1 hret).1]

/-- C7, witness: `ex_relocs_globals` has no null entry and all offsets in
range; an undefined-reference report is printed for record 0 and the run
returns after calling the target on all four records. -/
theorem relocate_section_continues_witness :
    (relocate_section ex_params ex_relinfo ex_relocate ex_relocs_globals 4 0x8000 16
        []).diags = [.undefined_reference 0 0 "missing"] ∧
    (relocate_section ex_params ex_relinfo ex_relocate ex_relocs_globals 4 0x8000 16
        []).outcome = .returned ∧
    relocate_positions (relocate_section ex_params ex_relinfo ex_relocate ex_relocs_globals 4
        0x8000 16 []) = List.range 4 :=
  ⟨by decide,
   relocate_section_continues ex_params ex_relinfo ex_relocate ex_relocs_globals 4 0x8000 16 []
    _ rfl
    (fun k hk => by
      have hk4 : k = 0 ∨ k = 1 ∨ k = 2 ∨ k = 3 := by omega
      rcases hk4 with rfl | rfl | rfl | rfl <;> decide)
    (by decide)⟩

/-- C8: the calls `scan_relocs` makes on the `Scan` object are for strictly
increasing record positions, each with the record found at that position;
`relocate_section` (run `R`) calls `relocate.relocate` with the record numbers
0, 1, 2, ... in strictly increasing order, each with the record found at that
position; and, for the same section, two records that `scan_relocs` hands over
in some order and that `relocate_section` hands over too are handed over by it
in the same order. -/
theorem order_preservation {σ Sym : Type} (P : Params) (A : Scan_args Sym)
    (relinfo : Relocate_info Sym) (relocate : Relocate σ Sym) (view_address : Nat)
    (view_size : Int) (s : σ) (R : Relocate_result σ Sym)
    (hR : R = relocate_section P relinfo relocate A.prelocs A.reloc_count view_address
      view_size s) :
    (scan_positions (scan_relocs P A)).Pairwise (· < ·) ∧
    (∀ x ∈ (scan_relocs P A).calls, x.2.reloc = reloc_at P x.1) ∧
    relocate_positions R = List.range R.calls.length ∧
    (relocate_positions R).Pairwise (· < ·) ∧
    (∀ x ∈ R.calls, x.1.reloc = reloc_at P x.1.i) ∧
    (∀ a b, List.Sublist [a, b] (scan_positions (scan_relocs P A)) →
      a ∈ relocate_positions R → b ∈ relocate_positions R →
      List.Sublist [a, b] (relocate_positions R)) := by
  subst hR
  have hss := scan_relocs_loop_positions_sorted P A A.reloc_count 0
  have hsc := scan_relocs_loop_calls_mem P A A.reloc_count 0
  have hrc := relocate_section_loop_calls_mem P relinfo relocate A.prelocs view_address
    view_size A.reloc_count 0 s
  rw [reloc_at_zero] at hss hsc hrc
  have hpos := relocate_section_positions P relinfo relocate A.prelocs view_address view_size
    A.reloc_count s
  refine ⟨hss, fun x hx => ?_, hpos, ?_, fun x hx => ?_, fun a b hab _ hb => ?_⟩
  · rcases scan_reloc_calls_mem P A x.1 x.2 (hsc x hx).2 with ⟨_, hc⟩ | ⟨_, g, _, hc⟩ <;>
      rw [hc] <;> rfl
  · rw [hpos]; exact List.pairwise_lt_range _
  · obtain ⟨rs, hops⟩ := (hrc x hx).2
    exact (relocate_operands_some P relinfo A.prelocs view_address view_size x.1.i x.1 rs
      hops).1.2.1
  · have hlt : a < b := by
      have := List.Pairwise.sublist hab hss
      simpa using this
    rw [hpos] at hb ⊢
    exact pair_sublist_range a b hlt _ (List.mem_range.mp hb)

/-- C8, witness: in the three-record scenario the scan hands over records 0
and 1 in that order, and so does `relocate_section`. -/
theorem order_preservation_witness :
    List.Sublist [0, 1] (relocate_positions
      (relocate_section ex_params ex_relinfo ex_relocate ex_relocs 3 0x8000 16 [])) :=
  (order_preservation ex_params ex_scan_args ex_relinfo ex_relocate 0x8000 16 [] _ rfl).2.2.2.2.2
    0 1 (by decide) (by decide) (by decide)

/-- C9: every call of `relocate.relocate` (in the run `R` of
`relocate_section`) is for the record at its record number; if that record has
`r_sym < local_count` the call gets a null symbol and the value
`local_values[r_sym]`; otherwise it gets the handle of
`global_syms[r_sym - local_count]` after forwarder resolution and the
`value()` of that resolved symbol (not that of the forwarder).  When the run
returns, every record got its call. -/
theorem relocate_section_symbol_value {σ Sym : Type} (P : Params) (relinfo : Relocate_info Sym)
    (relocate : Relocate σ Sym) (prelocs : Mem) (reloc_count view_address : Nat)
    (view_size : Int) (s : σ) (R : Relocate_result σ Sym)
    (hR : R = relocate_section P relinfo relocate prelocs reloc_count view_address view_size s) :
    (∀ x ∈ R.calls, x.1.reloc = reloc_at P x.1.i ∧
      (r_sym_at P prelocs x.1.i < relinfo.local_symbol_count →
        x.1.sym = none ∧ x.1.value = relinfo.values (r_sym_at P prelocs x.1.i)) ∧
      (relinfo.local_symbol_count ≤ r_sym_at P prelocs x.1.i →
        ∃ h, relinfo.symbols (r_sym_at P prelocs x.1.i - relinfo.local_symbol_count) = some h ∧
          x.1.sym = some (if relinfo.symtab.is_forwarder h
            then relinfo.symtab.resolve_forwards h else h) ∧
          x.1.value = relinfo.symtab.value (if relinfo.symtab.is_forwarder h
            then relinfo.symtab.resolve_forwards h else h))) ∧
    (R.outcome = .returned → relocate_positions R = List.range reloc_count) := by
  subst hR
  have hrc := relocate_section_loop_calls_mem P relinfo relocate prelocs view_address view_size
    reloc_count 0 s
  rw [reloc_at_zero] at hrc
  refine ⟨fun x hx => ?_, fun hret => ?_⟩
  · obtain ⟨rs, hops⟩ := (hrc x hx).2
    obtain ⟨hc, hl, hg⟩ :=
      relocate_operands_some P relinfo prelocs view_address view_size x.1.i x.1 rs hops
    refine ⟨hc.2.1, fun hloc => ⟨(hl hloc).1, (hl hloc).2.1⟩, fun hglob => ?_⟩
    obtain ⟨h, hh, hsym, hval, _⟩ := hg hglob
    exact ⟨h, hh, hsym, hval⟩
  · rw [relocate_section_positions, ((relocate_section_outcome P relinfo relocate prelocs
      view_address view_size reloc_count s).1 hret).1]

/-- C9, witness: in `ex_relocs_globals` record 1 refers to the forwarder 20; the
call for it gets the symbol 21 and the value of 21. -/
theorem relocate_section_symbol_value_witness :
    ∃ h, ex_global_syms (r_sym_at ex_params ex_relocs_globals 1 - 2) = some h ∧
      some 21 = some (if ex_symtab.is_forwarder h then ex_symtab.resolve_forwards h else h) ∧
      2100 = ex_symtab.value (if ex_symtab.is_forwarder h
        then ex_symtab.resolve_forwards h else h) :=
  ((relocate_section_symbol_value ex_params ex_relinfo ex_relocate ex_relocs_globals 4 0x8000
    16 [] _ rfl).1 (⟨1, 8, 2, some 21, 2100, 4, 0x8004, 16⟩, true) (by decide)).2.2 (by decide)

/-! ## Further facts about the run of relocate_section -/

section relocate_run_lemmas

variable {σ Sym : Type} (P : Params) (relinfo : Relocate_info Sym) (relocate : Relocate σ Sym)
  (prelocs : Mem) (view_address : Nat) (view_size : Int)

/-- Two calls of the trace with the same record number are the same call. -/
theorem relocate_section_calls_unique (reloc_count : Nat) (s : σ)
    (x y : Relocate_call Sym × Bool)
    (hx : x ∈ (relocate_section P relinfo relocate prelocs reloc_count view_address view_size
      s).calls)
    (hy : y ∈ (relocate_section P relinfo relocate prelocs reloc_count view_address view_size
      s).calls)
    (hxy : x.1.i = y.1.i) : x = y := by
  have hpos := relocate_section_positions P relinfo relocate prelocs view_address view_size
    reloc_count s
  have hmem : x.1.i ∈ relocate_positions
      (relocate_section P relinfo relocate prelocs reloc_count view_address view_size s) :=
    List.mem_map.mpr ⟨x, hx, rfl⟩
  rw [hpos] at hmem
  obtain ⟨z, hz, _⟩ := relocate_section_calls_for P relinfo relocate prelocs view_address
    view_size reloc_count s x.1.i (List.mem_range.mp hmem)
  have hxz : x ∈ [z] := by
    rw [← hz]; unfold relocate_calls_for
    exact List.mem_filter.mpr ⟨hx, by simp⟩
  have hyz : y ∈ [z] := by
    rw [← hz]; unfold relocate_calls_for
    exact List.mem_filter.mpr ⟨hy, by simp [hxy]⟩
  simp only [List.mem_singleton] at hxz hyz
  rw [hxz, hyz]

/-- The messages the trace of `relocate_section` holds for the record of a
call. -/
theorem relocate_section_diags_for (reloc_count : Nat) (s : σ)
    (x : Relocate_call Sym × Bool)
    (hx : x ∈ (relocate_section P relinfo relocate prelocs reloc_count view_address view_size
      s).calls) :
    diags_for (relocate_section P relinfo relocate prelocs reloc_count view_address view_size s)
        x.1.i =
      (if x.2 then
        (if bad_offset x.1.view view_size then
          [.bad_offset x.1.i x.1.view (to_size_t x.1.view)]
        else undefined_report relinfo.symtab x.1.i x.1.view x.1.sym)
      else []) := by
  have h := relocate_section_loop_diags_filter P relinfo relocate prelocs view_address view_size
    reloc_count 0 s
  rw [reloc_at_zero] at h
  exact h x hx

/-- The operands of every call of the trace of `relocate_section`. -/
theorem relocate_section_calls_operands (reloc_count : Nat) (s : σ)
    (x : Relocate_call Sym × Bool)
    (hx : x ∈ (relocate_section P relinfo relocate prelocs reloc_count view_address view_size
      s).calls) :
    x.1.i < reloc_count ∧
    ∃ rs, relocate_operands P relinfo prelocs view_address view_size x.1.i (reloc_at P x.1.i) =
      some (x.1, rs) := by
  have h := relocate_section_loop_calls_mem P relinfo relocate prelocs view_address view_size
    reloc_count 0 s
  rw [reloc_at_zero] at h
  have := h x hx
  exact ⟨by omega, this.2⟩

/-- When the loop ends in `gold_exit(false)`, the bad-offset message is the
last one printed. -/
theorem relocate_section_loop_exit_last (n : Nat) : ∀ (i : Nat) (s : σ) (k : Nat),
    (relocate_section_loop P relinfo relocate prelocs view_address view_size n i
        (reloc_at P i) s).outcome = .gold_exit_false k →
    ∃ pre, (relocate_section_loop P relinfo relocate prelocs view_address view_size n i
        (reloc_at P i) s).diags =
      pre ++ [.bad_offset k (offset_at P prelocs k) (to_size_t (offset_at P prelocs k))] := by
  induction n with
  | zero => intro i s k h; simp [relocate_section_loop] at h
  | succ n ih =>
    intro i s k ho
    rcases relocate_section_loop_cases P relinfo relocate prelocs view_address view_size i s with
      h | ⟨c, rs, h, hret, hbad⟩ | ⟨c, rs, h, hgo⟩
    · rw [relocate_section_loop_assert P relinfo relocate prelocs view_address view_size n i s h]
        at ho
      cases ho
    · rw [relocate_section_loop_exit P relinfo relocate prelocs view_address view_size n i s c rs
        h hret hbad] at ho ⊢
      simp only [Relocate_outcome.gold_exit_false.injEq] at ho
      subst ho
      have hc := (relocate_operands_some P relinfo prelocs view_address view_size i c rs h).1
      exact ⟨[], by rw [← hc.2.2.2.1]; rfl⟩
    · rw [relocate_section_loop_continue P relinfo relocate prelocs view_address view_size n i s
        c rs h hgo] at ho ⊢
      obtain ⟨pre, hpre⟩ := ih (i + 1) _ k ho
      refine ⟨(if (relocate s c).1 then undefined_report relinfo.symtab i c.view c.sym
        else []) ++ pre, ?_⟩
      simp only [hpre, List.append_assoc]

end relocate_run_lemmas

/-- A value read from `n` bytes is below `256 ^ n`. -/
theorem elfcpp.readval_lt (big_endian : Bool) (m : Mem) : ∀ (n p : Nat),
    elfcpp.readval big_endian m p n < 256 ^ n := by
  intro n
  induction n with
  | zero => intro p; simp [elfcpp.readval]
  | succ n ih =>
    intro p
    have h1 := ih (p + 1)
    have h2 : m p % 256 < 256 := Nat.mod_lt _ (by decide)
    unfold elfcpp.readval
    rw [Nat.pow_succ]
    cases big_endian
    · simp only [Bool.false_eq_true, if_false]
      omega
    · simp only [if_true]
      have h3 : m p % 256 * 256 ^ n ≤ 255 * 256 ^ n := Nat.mul_le_mul_right _ (by omega)
      omega

/-- The destination address is the sum of the section address and the raw
`r_offset`, reduced to the address width: the detour through `off_t` does not
show. -/
theorem to_Elf_Addr_to_off_t (size : elfcpp.Size) (view_address r_offset : Nat)
    (h : r_offset < 2 ^ size.bits) :
    to_Elf_Addr size ((view_address : Int) + to_off_t r_offset) =
      (view_address + r_offset) % 2 ^ size.bits := by
  unfold to_Elf_Addr to_off_t OFF_T_BITS
  cases size
  · simp only [elfcpp.Size.bits] at h ⊢
    norm_num at h ⊢
    split <;> omega
  · simp only [elfcpp.Size.bits] at h ⊢
    norm_num at h ⊢
    split <;> omega

/-- The raw `r_offset` of a record fits the address width. -/
theorem elfcpp.get_r_offset_lt (size : elfcpp.Size) (big_endian : Bool) (m : Mem)
    (reloc : Nat) : elfcpp.get_r_offset size big_endian m reloc < 2 ^ size.bits := by
  unfold elfcpp.get_r_offset
  have h := elfcpp.readval_lt big_endian m size.bytes reloc
  cases size
  · simp only [elfcpp.Size.bytes, elfcpp.Size.bits] at h ⊢
    norm_num at h ⊢
    exact h
  · simp only [elfcpp.Size.bytes, elfcpp.Size.bits] at h ⊢
    norm_num at h ⊢
    exact h

/-! ## Record layout, arguments and checks -/

/-- C12: `Reloc_types` gives `SHT_REL` the size `Elf_sizes<size>::rel_size` (the
implicit-addend record of two words) and `SHT_RELA` the size
`Elf_sizes<size>::rela_size` (the explicit-addend record of three words); the
size depends on the record kind and the address width only, not on the
endianness.  In `scan_relocs` and in `relocate_section` (run `R`) the pass for
record `i` works on the record decoded from the bytes at offset
`i * reloc_size`: the calls for `i` are those of the loop body on that view,
they carry that view and the type decoded from it, and a failed assertion at
`i` is one of the loop body on that view. -/
theorem record_layout_and_stride {σ Sym : Type} (P : Params) (A : Scan_args Sym)
    (relinfo : Relocate_info Sym) (relocate : Relocate σ Sym) (prelocs : Mem)
    (reloc_count view_address : Nat) (view_size : Int) (s : σ) (R : Relocate_result σ Sym)
    (hR : R = relocate_section P relinfo relocate prelocs reloc_count view_address view_size s) :
    (∀ size big_endian,
      Reloc_types.reloc_size ⟨size, big_endian, .SHT_REL⟩ = elfcpp.rel_size size ∧
      Reloc_types.reloc_size ⟨size, big_endian, .SHT_RELA⟩ = elfcpp.rela_size size) ∧
    (∀ size, elfcpp.rel_size size = 2 * size.bytes ∧ elfcpp.rela_size size = 3 * size.bytes) ∧
    (∀ size sh_type,
      Reloc_types.reloc_size ⟨size, true, sh_type⟩ =
        Reloc_types.reloc_size ⟨size, false, sh_type⟩) ∧
    (∀ x ∈ (scan_relocs P A).calls,
      x.2 ∈ (scan_reloc P A (x.1 * Reloc_types.reloc_size P)).calls ∧
      x.2.reloc = x.1 * Reloc_types.reloc_size P ∧
      x.2.r_type = elfcpp.elf_r_type P.size
        (elfcpp.get_r_info P.size P.big_endian A.prelocs (x.1 * Reloc_types.reloc_size P))) ∧
    (∀ k a, (scan_relocs P A).outcome = .assert_failed k a →
      (scan_reloc P A (k * Reloc_types.reloc_size P)).failed = some a) ∧
    (∀ x ∈ R.calls,
      (∃ rs, relocate_operands P relinfo prelocs view_address view_size x.1.i
        (x.1.i * Reloc_types.reloc_size P) = some (x.1, rs)) ∧
      x.1.reloc = x.1.i * Reloc_types.reloc_size P ∧
      x.1.r_type = elfcpp.elf_r_type P.size
        (elfcpp.get_r_info P.size P.big_endian prelocs (x.1.i * Reloc_types.reloc_size P)) ∧
      x.1.view = to_off_t
        (elfcpp.get_r_offset P.size P.big_endian prelocs (x.1.i * Reloc_types.reloc_size P))) ∧
    (∀ k, R.outcome = .assert_failed k →
      relocate_operands P relinfo prelocs view_address view_size k
        (k * Reloc_types.reloc_size P) = none) := by
  subst hR
  have hsc := scan_relocs_loop_calls_mem P A A.reloc_count 0
  have hso := (scan_relocs_loop_outcome P A A.reloc_count 0).1
  rw [reloc_at_zero] at hsc hso
  refine ⟨fun size be => ⟨rfl, rfl⟩, fun size => ?_, fun size sh => rfl, fun x hx => ?_,
    fun k a ho => ?_, fun x hx => ?_, fun k ho => ?_⟩
  · cases size <;> exact ⟨rfl, rfl⟩
  · have hmem := (hsc x hx).2
    refine ⟨hmem, ?_⟩
    rcases scan_reloc_calls_mem P A x.1 x.2 hmem with ⟨_, hc⟩ | ⟨_, g, _, hc⟩ <;>
      rw [hc] <;> exact ⟨rfl, rfl⟩
  · exact ((hso k a).mp ho).2.2
  · obtain ⟨_, rs, hops⟩ := relocate_section_calls_operands P relinfo relocate prelocs
      view_address view_size reloc_count s x hx
    have hc := (relocate_operands_some P relinfo prelocs view_address view_size x.1.i x.1 rs
      hops).1
    exact ⟨⟨rs, hops⟩, hc.2.1, hc.2.2.1, hc.2.2.2.1⟩
  · have := ((relocate_section_outcome P relinfo relocate prelocs view_address view_size
      reloc_count s).2.2 k ho).2.2.1
    exact (relocate_operands_none_iff P relinfo prelocs view_address view_size k).mpr this

/-- C12, witness: in the three-record scenario (32-bit implicit-addend records
of 8 bytes) the call for record 2 carries the view at byte 16 and the type 1
decoded there. -/
theorem record_layout_and_stride_witness :
    Reloc_types.reloc_size ex_params = 8 ∧
    (16 : Nat) = 2 * Reloc_types.reloc_size ex_params ∧
    (1 : Nat) = elfcpp.elf_r_type ex_params.size
      (elfcpp.get_r_info ex_params.size ex_params.big_endian ex_relocs
        (2 * Reloc_types.reloc_size ex_params)) :=
  have h := ((record_layout_and_stride ex_params ex_scan_args ex_relinfo ex_relocate ex_relocs 3
    0x8000 16 [] _ rfl).2.2.2.2.2.1 (⟨2, 16, 1, none, 0, 8, 0x8008, 16⟩, true) (by decide)).2
  ⟨by decide, h.1, h.2.1⟩

/-- C13: for every record for which `relocate.relocate` answers false (in the
run `R`), whatever its offset and its symbol, `relocate_section` prints no
message for the record and does not stop at it (neither `gold_exit(false)` nor
an assertion is at this record); it goes on to the next record, for which it
either calls `relocate.relocate` or stops on the assertion `gsym != NULL`, and
it returns when the record was the last one. -/
theorem relocate_section_false_answer {σ Sym : Type} (P : Params) (relinfo : Relocate_info Sym)
    (relocate : Relocate σ Sym) (prelocs : Mem) (reloc_count view_address : Nat)
    (view_size : Int) (s : σ) (R : Relocate_result σ Sym)
    (hR : R = relocate_section P relinfo relocate prelocs reloc_count view_address view_size s)
    (x : Relocate_call Sym × Bool) (hx : x ∈ R.calls) (hret : x.2 = false) :
    diags_for R x.1.i = [] ∧
    (∀ k, R.outcome = .gold_exit_false k → x.1.i < k) ∧
    (∀ k, R.outcome = .assert_failed k → x.1.i < k) ∧
    (x.1.i + 1 < reloc_count →
      (x.1.i + 1 ∈ relocate_positions R ∨ R.outcome = .assert_failed (x.1.i + 1))) ∧
    (x.1.i + 1 = reloc_count → R.outcome = .returned) := by
  subst hR
  have hd := relocate_section_diags_for P relinfo relocate prelocs view_address view_size
    reloc_count s x hx
  have hout := relocate_section_outcome P relinfo relocate prelocs view_address view_size
    reloc_count s
  have hpos := relocate_section_positions P relinfo relocate prelocs view_address view_size
    reloc_count s
  have huniq := relocate_section_calls_unique P relinfo relocate prelocs view_address view_size
    reloc_count s
  generalize relocate_section P relinfo relocate prelocs reloc_count view_address view_size s
    = R at hx hd hout hpos huniq ⊢
  obtain ⟨h1, h2, h3⟩ := hout
  have hmem : x.1.i ∈ relocate_positions R := List.mem_map.mpr ⟨x, hx, rfl⟩
  have hlt : x.1.i < R.calls.length := by rw [hpos] at hmem; exact List.mem_range.mp hmem
  have hexit : ∀ k, R.outcome = .gold_exit_false k → x.1.i < k := by
    intro k ho
    obtain ⟨_, hl, ⟨y, hy, hyk, hy2, _⟩, _⟩ := h2 k ho
    have hne : x.1.i ≠ k := by
      intro h
      have := huniq x y hx hy (by rw [h, hyk])
      rw [this, hy2] at hret
      cases hret
    omega
  have hassert : ∀ k, R.outcome = .assert_failed k → x.1.i < k := by
    intro k ho
    have := (h3 k ho).2.1
    omega
  refine ⟨by rw [hd, hret]; rfl, hexit, hassert, fun hnext => ?_, fun hlast => ?_⟩
  · cases ho : R.outcome with
    | returned =>
      left; rw [hpos, (h1 ho).1]; exact List.mem_range.mpr hnext
    | gold_exit_false k =>
      left; rw [hpos, (h2 k ho).2.1]
      have := hexit k ho
      exact List.mem_range.mpr (by omega)
    | assert_failed k =>
      have hk := hassert k ho
      by_cases hkk : x.1.i + 1 = k
      · right; rw [hkk]
      · left; rw [hpos, (h3 k ho).2.1]
        exact List.mem_range.mpr (by omega)
  · cases ho : R.outcome with
    | returned => rfl
    | gold_exit_false k =>
      have := hexit k ho
      have := (h2 k ho).1
      omega
    | assert_failed k =>
      have := hassert k ho
      have := (h3 k ho).1
      omega

/-- C13, witness: with a target that answers false, record 1 of
`ex_relocs_bad_offset` (offset 32 beyond view_size 16, undefined symbol 10 of
global binding) gets no message and the run goes on to record 2. -/
theorem relocate_section_false_answer_witness :
    diags_for (relocate_section ex_params ex_relinfo ex_relocate_false ex_relocs_bad_offset 3
      0x8000 16 []) 1 = [] ∧
    (2 ∈ relocate_positions (relocate_section ex_params ex_relinfo ex_relocate_false
        ex_relocs_bad_offset 3 0x8000 16 []) ∨
      (relocate_section ex_params ex_relinfo ex_relocate_false ex_relocs_bad_offset 3
        0x8000 16 []).outcome = .assert_failed 2) :=
  have h := relocate_section_false_answer ex_params ex_relinfo ex_relocate_false
    ex_relocs_bad_offset 3 0x8000 16 [] _ rfl (⟨1, 8, 2, some 10, 1000, 32, 0x8020, 16⟩, false)
    (by decide) rfl
  ⟨h.1, h.2.2.2.1 (by decide)⟩

/-- C14: for a record for which `relocate.relocate` answered true (in the run
`R`) and whose offset fails the bounds check, whatever its symbol: the only
message printed for the record is the bad-offset message, it is the last
message of the run, the run ends in `gold_exit(false)` at this record, and no
undefined-reference report is about this record. -/
theorem relocate_section_check_order {σ Sym : Type} (P : Params) (relinfo : Relocate_info Sym)
    (relocate : Relocate σ Sym) (prelocs : Mem) (reloc_count view_address : Nat)
    (view_size : Int) (s : σ) (R : Relocate_result σ Sym)
    (hR : R = relocate_section P relinfo relocate prelocs reloc_count view_address view_size s)
    (x : Relocate_call Sym × Bool) (hx : x ∈ R.calls) (hret : x.2 = true)
    (hbad : x.1.view < 0 ∨ view_size ≤ x.1.view) :
    diags_for R x.1.i = [.bad_offset x.1.i x.1.view (to_size_t x.1.view)] ∧
    R.outcome = .gold_exit_false x.1.i ∧
    (∃ pre, R.diags = pre ++ [.bad_offset x.1.i x.1.view (to_size_t x.1.view)]) ∧
    (∀ d ∈ R.diags, d.is_undefined_reference = true → d.relnum ≠ x.1.i) := by
  subst hR
  have hb : bad_offset x.1.view view_size = true := (bad_offset_iff _ _).mpr hbad
  have hd := relocate_section_diags_for P relinfo relocate prelocs view_address view_size
    reloc_count s x hx
  simp only [hret, hb, if_true] at hd
  have hout := relocate_section_outcome P relinfo relocate prelocs view_address view_size
    reloc_count s
  obtain ⟨_, rs, hops⟩ := relocate_section_calls_operands P relinfo relocate prelocs
    view_address view_size reloc_count s x hx
  have hview := (relocate_operands_some P relinfo prelocs view_address view_size x.1.i x.1 rs
    hops).1.2.2.2.1
  have hlast := relocate_section_loop_exit_last P relinfo relocate prelocs view_address
    view_size reloc_count 0 s
  rw [reloc_at_zero] at hlast
  have ho : (relocate_section P relinfo relocate prelocs reloc_count view_address view_size
      s).outcome = .gold_exit_false x.1.i := by
    cases ho : (relocate_section P relinfo relocate prelocs reloc_count view_address view_size
        s).outcome with
    | returned => exact absurd ⟨hret, hb⟩ ((hout.1 ho).2 x hx)
    | gold_exit_false k => rw [(hout.2.1 k ho).2.2.2.1 x hx hret hb]
    | assert_failed k => exact absurd ⟨hret, hb⟩ ((hout.2.2 k ho).2.2.2 x hx)
  refine ⟨hd, ho, ?_, fun d hd1 hd2 hd3 => ?_⟩
  · obtain ⟨pre, hpre⟩ := hlast x.1.i ho
    refine ⟨pre, ?_⟩
    rw [hview]
    exact hpre
  · have hmem : d ∈ diags_for (relocate_section P relinfo relocate prelocs reloc_count
        view_address view_size s) x.1.i := by
      unfold diags_for
      exact List.mem_filter.mpr ⟨hd1, by simpa using hd3⟩
    rw [hd] at hmem
    simp only [List.mem_singleton] at hmem
    rw [hmem] at hd2
    simp [Diagnostic.is_undefined_reference] at hd2

/-- C14, witness: record 1 of `ex_relocs_bad_offset` has offset 32 beyond
view_size 16 and refers to the undefined symbol 10 of global binding; the
target answers true; the only message is the bad-offset one and the run
ends. -/
theorem relocate_section_check_order_witness :
    (relocate_section ex_params ex_relinfo ex_relocate ex_relocs_bad_offset 3 0x8000 16
      []).diags = [.bad_offset 1 32 32] ∧
    (relocate_section ex_params ex_relinfo ex_relocate ex_relocs_bad_offset 3 0x8000 16
      []).outcome = .gold_exit_false 1 :=
  ⟨by decide,
   (relocate_section_check_order ex_params ex_relinfo ex_relocate ex_relocs_bad_offset 3 0x8000
    16 [] _ rfl (⟨1, 8, 2, some 10, 1000, 32, 0x8020, 16⟩, true) (by decide) rfl
    (Or.inr (by decide))).2.1⟩

/-- C15: every call of `relocate.relocate` (in the run `R` of
`relocate_section`) is for a record `i` of the section and carries the record
number `i`, the type decoded from record `i`, the destination pointer
`view + offset`, the destination address `view_address + offset` reduced
modulo `2 ^ size` (the same as with the raw `r_offset`), and `view_size`
unchanged, where `offset` is the `r_offset` of record `i` as an `off_t`.  The
calls are made for the records 0, 1, 2, ... one after the other without a look
at the offset: when the run ends at the bounds check of record `k`, the call
for `k` with its out-of-range offset has been made. -/
theorem relocate_section_arguments {σ Sym : Type} (P : Params) (relinfo : Relocate_info Sym)
    (relocate : Relocate σ Sym) (prelocs : Mem) (reloc_count view_address : Nat)
    (view_size : Int) (s : σ) (R : Relocate_result σ Sym)
    (hR : R = relocate_section P relinfo relocate prelocs reloc_count view_address view_size s) :
    (∀ x ∈ R.calls,
      x.1.i < reloc_count ∧
      x.1.r_type = r_type_at P prelocs x.1.i ∧
      x.1.view = offset_at P prelocs x.1.i ∧
      offset_at P prelocs x.1.i =
        to_off_t (elfcpp.get_r_offset P.size P.big_endian prelocs (reloc_at P x.1.i)) ∧
      x.1.address = to_Elf_Addr P.size ((view_address : Int) + offset_at P prelocs x.1.i) ∧
      x.1.address =
        (view_address + elfcpp.get_r_offset P.size P.big_endian prelocs (reloc_at P x.1.i)) %
          2 ^ P.size.bits ∧
      x.1.view_size = view_size) ∧
    relocate_positions R = List.range R.calls.length ∧
    (R.outcome = .returned → R.calls.length = reloc_count) ∧
    (∀ k, R.outcome = .gold_exit_false k →
      ∃ x ∈ R.calls, x.1.i = k ∧ (x.1.view < 0 ∨ view_size ≤ x.1.view)) := by
  subst hR
  have hout := relocate_section_outcome P relinfo relocate prelocs view_address view_size
    reloc_count s
  refine ⟨fun x hx => ?_, relocate_section_positions P relinfo relocate prelocs view_address
    view_size reloc_count s, fun ho => (hout.1 ho).1, fun k ho => ?_⟩
  · obtain ⟨hlt, rs, hops⟩ := relocate_section_calls_operands P relinfo relocate prelocs
      view_address view_size reloc_count s x hx
    obtain ⟨_, _, h3, h4, h5, h6⟩ :=
      (relocate_operands_some P relinfo prelocs view_address view_size x.1.i x.1 rs hops).1
    refine ⟨hlt, h3, h4, rfl, h5, ?_, h6⟩
    rw [h5]
    unfold offset_at
    exact to_Elf_Addr_to_off_t P.size view_address _ (elfcpp.get_r_offset_lt _ _ _ _)
  · obtain ⟨_, _, ⟨x, hx, hxk, _, hb⟩, _⟩ := hout.2.1 k ho
    exact ⟨x, hx, hxk, (bad_offset_iff _ _).mp hb⟩

/-- C15, witness: the call for record 1 of `ex_relocs_bad_offset` is made with
the destination offset 32 and the address 0x8020, although view_size is 16. -/
theorem relocate_section_arguments_witness :
    (1 : Nat) < 3 ∧
    (2 : Nat) = r_type_at ex_params ex_relocs_bad_offset 1 ∧
    (32 : Int) = offset_at ex_params ex_relocs_bad_offset 1 :=
  have h := (relocate_section_arguments ex_params ex_relinfo ex_relocate ex_relocs_bad_offset 3
    0x8000 16 [] _ rfl).1 (⟨1, 8, 2, some 10, 1000, 32, 0x8020, 16⟩, true) (by decide)
  ⟨h.1, h.2.1, h.2.2.1⟩

/-- C18: when the entry `global_syms[r_sym - local_count]` of a record is a
forwarder `h`, the symbol that `relocate_section` (run `R`) gives to
`relocate.relocate` is `resolve_forwards(h)`, and after a true answer with the
offset in `[0, view_size)` the undefined-reference report is printed for the
record if and only if `resolve_forwards(h)` is undefined and not weak; the
name printed is that of `resolve_forwards(h)`.  Whether `h` itself is
undefined or weak plays no part. -/
theorem undefined_decision_on_resolved {σ Sym : Type} (P : Params)
    (relinfo : Relocate_info Sym) (relocate : Relocate σ Sym) (prelocs : Mem)
    (reloc_count view_address : Nat) (view_size : Int) (s : σ) (R : Relocate_result σ Sym)
    (hR : R = relocate_section P relinfo relocate prelocs reloc_count view_address view_size s)
    (x : Relocate_call Sym × Bool) (hx : x ∈ R.calls) (hret : x.2 = true)
    (h0 : 0 ≤ x.1.view) (h1 : x.1.view < view_size) (h : Sym)
    (hglob : relinfo.local_symbol_count ≤ r_sym_at P prelocs x.1.i)
    (hh : relinfo.symbols (r_sym_at P prelocs x.1.i - relinfo.local_symbol_count) = some h)
    (hf : relinfo.symtab.is_forwarder h = true) :
    x.1.sym = some (relinfo.symtab.resolve_forwards h) ∧
    (diags_for R x.1.i =
        [.undefined_reference x.1.i x.1.view
          (relinfo.symtab.name (relinfo.symtab.resolve_forwards h))] ↔
      (relinfo.symtab.is_undefined (relinfo.symtab.resolve_forwards h) = true ∧
        relinfo.symtab.binding (relinfo.symtab.resolve_forwards h) ≠ elfcpp.STB_WEAK)) ∧
    (diags_for R x.1.i = [] ↔
      ¬ (relinfo.symtab.is_undefined (relinfo.symtab.resolve_forwards h) = true ∧
        relinfo.symtab.binding (relinfo.symtab.resolve_forwards h) ≠ elfcpp.STB_WEAK)) := by
  subst hR
  have hd := relocate_section_diags_for P relinfo relocate prelocs view_address view_size
    reloc_count s x hx
  have hb : bad_offset x.1.view view_size = false := by
    cases hbb : bad_offset x.1.view view_size with
    | false => rfl
    | true =>
      rcases (bad_offset_iff _ _).mp hbb with h2 | h2 <;> omega
  simp only [hret, hb, if_true, Bool.false_eq_true, if_false] at hd
  obtain ⟨_, rs, hops⟩ := relocate_section_calls_operands P relinfo relocate prelocs
    view_address view_size reloc_count s x hx
  obtain ⟨g, hg, hsym, _, _⟩ :=
    (relocate_operands_some P relinfo prelocs view_address view_size x.1.i x.1 rs hops).2.2 hglob
  rw [hh] at hg
  simp only [Option.some.injEq] at hg
  subst hg
  have hres : resolved relinfo.symtab h = relinfo.symtab.resolve_forwards h := by
    unfold resolved; simp [hf]
  rw [hres] at hsym
  rw [hd, hsym]
  refine ⟨rfl, ?_, ?_⟩
  · by_cases hc : relinfo.symtab.is_undefined (relinfo.symtab.resolve_forwards h) = true ∧
        relinfo.symtab.binding (relinfo.symtab.resolve_forwards h) ≠ elfcpp.STB_WEAK
    · simp [undefined_report, hc.1, hc.2]
    · have hc2 := hc
      rw [not_and_or] at hc2
      rcases hc2 with hu | hw
      · simp [undefined_report, hu]
      · simp only [ne_eq, not_not] at hw
        simp [undefined_report, hw]
  · by_cases hc : relinfo.symtab.is_undefined (relinfo.symtab.resolve_forwards h) = true ∧
        relinfo.symtab.binding (relinfo.symtab.resolve_forwards h) ≠ elfcpp.STB_WEAK
    · simp [undefined_report, hc.1, hc.2]
    · have hc2 := hc
      rw [not_and_or] at hc2
      rcases hc2 with hu | hw
      · simp [undefined_report, hu]
      · simp only [ne_eq, not_not] at hw
        simp [undefined_report, hw]

/-- C18, witness: record 1 of `ex_relocs_globals` refers to the forwarder 20,
which resolves to 21.  When 21 is undefined and 20 is not, the report is
printed with the name of 21; when 20 is undefined and 21 is not, nothing is
printed. -/
theorem undefined_decision_on_resolved_witness :
    diags_for (relocate_section ex_params ex_relinfo_target_undefined ex_relocate
      ex_relocs_globals 4 0x8000 16 []) 1 = [.undefined_reference 1 4 "canonical"] ∧
    diags_for (relocate_section ex_params ex_relinfo_forwarder_undefined ex_relocate
      ex_relocs_globals 4 0x8000 16 []) 1 = [] :=
  ⟨(undefined_decision_on_resolved ex_params ex_relinfo_target_undefined ex_relocate
      ex_relocs_globals 4 0x8000 16 [] _ rfl (⟨1, 8, 2, some 21, 2100, 4, 0x8004, 16⟩, true)
      (by decide) rfl (by decide) (by decide) 20 (by decide) (by decide)
      (by decide)).2.1.mpr (by decide),
   (undefined_decision_on_resolved ex_params ex_relinfo_forwarder_undefined ex_relocate
      ex_relocs_globals 4 0x8000 16 [] _ rfl (⟨1, 8, 2, some 21, 2100, 4, 0x8004, 16⟩, true)
      (by decide) rfl (by decide) (by decide) 20 (by decide) (by decide)
      (by decide)).2.2.mpr (by decide)⟩

/-! ## The address of the local symbol entry -/

/-- The symbol index of a 32-bit record is below `2 ^ 24`. -/
theorem r_sym_at_s32_lt (big_endian : Bool) (sh_type : elfcpp.Sh_type) (prelocs : Mem)
    (i : Nat) : r_sym_at ⟨.s32, big_endian, sh_type⟩ prelocs i < 2 ^ 24 := by
  unfold r_sym_at r_info_at elfcpp.get_r_info elfcpp.elf_r_sym
  have h := elfcpp.readval_lt big_endian prelocs 4
    (reloc_at ⟨.s32, big_endian, sh_type⟩ i + 4)
  simp only [elfcpp.Size.bytes]
  norm_num at h ⊢
  omega

/-- C16 (the code at the failing input): a 64-bit record against local symbol
`2 ^ 29` in an object with `2 ^ 29 + 1` local symbols.  The product
`r_sym * sym_size` is `2 ^ 29 * 24 = 3 * 2 ^ 32`, which is 0 as an
`unsigned int`: `scan_relocs` reads the entry at byte 0 (symbol 0, section 1,
included) and calls `scan.local` with it, while the entry of symbol `2 ^ 29`
at byte `2 ^ 29 * 24` lies in the discarded section 2.  For 32-bit records the
product never wraps. -/
theorem lsym_offset_wraps_at_failing_input :
    r_sym_at ex_params64 ex_scan_args_wrap.prelocs 0 = 2 ^ 29 ∧
    r_sym_at ex_params64 ex_scan_args_wrap.prelocs 0 < ex_scan_args_wrap.local_count ∧
    r_sym_at ex_params64 ex_scan_args_wrap.prelocs 0 * elfcpp.sym_size ex_params64.size =
      12884901888 ∧
    lsym_offset ex_params64.size (r_sym_at ex_params64 ex_scan_args_wrap.prelocs 0) = 0 ∧
    (scan_relocs ex_params64 ex_scan_args_wrap).calls = [(0, .local_ 0 1 0)] ∧
    elfcpp.get_st_shndx ex_params64.size ex_params64.big_endian ex_local_syms_wrap 0 = 1 ∧
    elfcpp.get_st_shndx ex_params64.size ex_params64.big_endian ex_local_syms_wrap
      12884901888 = 2 ∧
    in_discarded_section ex_scan_args_wrap.is_section_included 2 = true ∧
    (∀ big_endian sh_type prelocs i,
      lsym_offset elfcpp.Size.s32 (r_sym_at ⟨.s32, big_endian, sh_type⟩ prelocs i) =
        r_sym_at ⟨.s32, big_endian, sh_type⟩ prelocs i * elfcpp.sym_size .s32) := by
  refine ⟨by decide, by decide, by decide, by decide, by decide, by decide, by decide,
    by decide, fun big_endian sh_type prelocs i => ?_⟩
  have h := r_sym_at_s32_lt big_endian sh_type prelocs i
  apply lsym_offset_eq
  simp only [elfcpp.sym_size, UINT_BITS]
  norm_num at h ⊢
  omega

/-! ## Local records never touch the global table, global records never the local one -/

section separation_lemmas

variable {σ Sym : Type} (P : Params)

/-- The pass of `scan_relocs` on a local record reads neither `global_syms` nor
the symbol table. -/
theorem scan_reloc_local_indep (A1 A2 : Scan_args Sym) (p : Nat)
    (hpre : A1.prelocs = A2.prelocs) (hlc : A1.local_count = A2.local_count)
    (hpl : A1.plocal_syms = A2.plocal_syms)
    (hincl : A1.is_section_included = A2.is_section_included)
    (hloc : elfcpp.elf_r_sym P.size (elfcpp.get_r_info P.size P.big_endian A1.prelocs p) <
      A1.local_count) :
    scan_reloc P A1 p = scan_reloc P A2 p := by
  have hloc2 := hloc
  rw [hpre, hlc] at hloc2
  unfold scan_reloc
  simp only [hloc, hloc2, if_true]
  rw [hpre, hpl, hincl]

/-- The pass of `scan_relocs` on a global record reads neither `plocal_syms`
nor the inclusion state of sections. -/
theorem scan_reloc_global_indep (A1 A2 : Scan_args Sym) (p : Nat)
    (hpre : A1.prelocs = A2.prelocs) (hlc : A1.local_count = A2.local_count)
    (hT : A1.symtab = A2.symtab) (hg : A1.global_syms = A2.global_syms)
    (hglob : A1.local_count ≤
      elfcpp.elf_r_sym P.size (elfcpp.get_r_info P.size P.big_endian A1.prelocs p)) :
    scan_reloc P A1 p = scan_reloc P A2 p := by
  have h1 := Nat.not_lt.mpr hglob
  have h2 := h1
  rw [hpre, hlc] at h2
  unfold scan_reloc
  simp only [h1, h2, if_false]
  rw [hpre, hlc, hT, hg]

/-- Two scans whose passes agree record by record agree. -/
theorem scan_relocs_loop_congr (A1 A2 : Scan_args Sym) (n : Nat) : ∀ (i : Nat),
    (∀ j, i ≤ j → j < i + n →
      scan_reloc P A1 (reloc_at P j) = scan_reloc P A2 (reloc_at P j)) →
    scan_relocs_loop P A1 n i (reloc_at P i) = scan_relocs_loop P A2 n i (reloc_at P i) := by
  induction n with
  | zero => intro i _; rfl
  | succ n ih =>
    intro i h
    have hi := h i (Nat.le_refl _) (by omega)
    have hrest := ih (i + 1) (fun j hj1 hj2 => h j (by omega) (by omega))
    simp only [scan_relocs_loop, hi, reloc_at_succ, hrest]

variable (relocate : Relocate σ Sym) (prelocs : Mem) (view_address : Nat) (view_size : Int)

/-- The pass of `relocate_section` on a local record reads neither the symbol
array nor the symbol table. -/
theorem relocate_reloc_local_indep (r1 r2 : Relocate_info Sym) (i p : Nat) (s : σ)
    (hlc : r1.local_symbol_count = r2.local_symbol_count) (hv : r1.values = r2.values)
    (hloc : elfcpp.elf_r_sym P.size (elfcpp.get_r_info P.size P.big_endian prelocs p) <
      r1.local_symbol_count) :
    relocate_reloc P r1 relocate prelocs view_address view_size i p s =
      relocate_reloc P r2 relocate prelocs view_address view_size i p s := by
  have hloc2 := hloc
  rw [hlc] at hloc2
  unfold relocate_reloc relocate_operands
  simp only [hloc, hloc2, if_true, hv]
  rw [relocate_checks_eq, relocate_checks_eq]
  simp only [undefined_report]

/-- The pass of `relocate_section` on a global record does not read the local
values. -/
theorem relocate_reloc_global_indep (r1 r2 : Relocate_info Sym) (i p : Nat) (s : σ)
    (hlc : r1.local_symbol_count = r2.local_symbol_count) (hT : r1.symtab = r2.symtab)
    (hg : r1.symbols = r2.symbols)
    (hglob : r1.local_symbol_count ≤
      elfcpp.elf_r_sym P.size (elfcpp.get_r_info P.size P.big_endian prelocs p)) :
    relocate_reloc P r1 relocate prelocs view_address view_size i p s =
      relocate_reloc P r2 relocate prelocs view_address view_size i p s := by
  have h1 := Nat.not_lt.mpr hglob
  have h2 := h1
  rw [hlc] at h2
  unfold relocate_reloc relocate_operands
  simp only [h1, h2, if_false]
  rw [hlc, hT, hg]
  cases r2.symbols (elfcpp.elf_r_sym P.size (elfcpp.get_r_info P.size P.big_endian prelocs p) -
      r2.local_symbol_count) with
  | none => rfl
  | some g =>
    simp only []
    split <;> simp only [relocate_checks_eq, hT]

/-- Two runs of `relocate_section` whose passes agree record by record, in
every state, agree. -/
theorem relocate_section_loop_congr (r1 r2 : Relocate_info Sym) (n : Nat) :
    ∀ (i : Nat) (s : σ),
    (∀ j t, i ≤ j → j < i + n →
      relocate_reloc P r1 relocate prelocs view_address view_size j (reloc_at P j) t =
        relocate_reloc P r2 relocate prelocs view_address view_size j (reloc_at P j) t) →
    relocate_section_loop P r1 relocate prelocs view_address view_size n i (reloc_at P i) s =
      relocate_section_loop P r2 relocate prelocs view_address view_size n i (reloc_at P i)
        s := by
  induction n with
  | zero => intro i s _; rfl
  | succ n ih =>
    intro i s h
    have hi := h i s (Nat.le_refl _) (by omega)
    simp only [relocate_section_loop, hi, reloc_at_succ]
    rw [ih (i + 1) _ (fun j t hj1 hj2 => h j t (by omega) (by omega))]

end separation_lemmas

/-- C11: take two scans `A1`, `A2` and two relocation contexts `r1`, `r2` of the
same section (same records, same counts), and the same target.  If every
record has `r_sym < local_count`, then the whole result of `scan_relocs` (calls
on the `Scan` object, outcome) and of `relocate_section` (calls of
`relocate.relocate` with their answers, messages, final state, outcome) is the
same for any two global symbol arrays and symbol tables.  If every record has
`r_sym >= local_count`, it is the same for any two local symbol tables (null
or not), inclusion states and local value arrays. -/
theorem local_global_separation {σ Sym : Type} (P : Params) (A1 A2 : Scan_args Sym)
    (r1 r2 : Relocate_info Sym) (relocate : Relocate σ Sym) (prelocs : Mem)
    (reloc_count view_address : Nat) (view_size : Int) (s : σ)
    (hpre : A1.prelocs = A2.prelocs) (hcount : A1.reloc_count = A2.reloc_count)
    (hlc : A1.local_count = A2.local_count)
    (hrlc : r1.local_symbol_count = r2.local_symbol_count) :
    ((∀ j, j < A1.reloc_count → r_sym_at P A1.prelocs j < A1.local_count) →
      A1.plocal_syms = A2.plocal_syms → A1.is_section_included = A2.is_section_included →
      scan_relocs P A1 = scan_relocs P A2) ∧
    ((∀ j, j < reloc_count → r_sym_at P prelocs j < r1.local_symbol_count) →
      r1.values = r2.values →
      relocate_section P r1 relocate prelocs reloc_count view_address view_size s =
        relocate_section P r2 relocate prelocs reloc_count view_address view_size s) ∧
    ((∀ j, j < A1.reloc_count → A1.local_count ≤ r_sym_at P A1.prelocs j) →
      A1.symtab = A2.symtab → A1.global_syms = A2.global_syms →
      scan_relocs P A1 = scan_relocs P A2) ∧
    ((∀ j, j < reloc_count → r1.local_symbol_count ≤ r_sym_at P prelocs j) →
      r1.symtab = r2.symtab → r1.symbols = r2.symbols →
      relocate_section P r1 relocate prelocs reloc_count view_address view_size s =
        relocate_section P r2 relocate prelocs reloc_count view_address view_size s) := by
  refine ⟨fun hall hpl hincl => ?_, fun hall hv => ?_, fun hall hT hg => ?_,
    fun hall hT hg => ?_⟩
  · unfold scan_relocs
    rw [← hcount]
    have h := scan_relocs_loop_congr P A1 A2 A1.reloc_count 0 (fun j _ hj =>
      scan_reloc_local_indep P A1 A2 (reloc_at P j) hpre hlc hpl hincl (hall j (by omega)))
    rw [reloc_at_zero] at h
    exact h
  · unfold relocate_section
    have h := relocate_section_loop_congr P relocate prelocs view_address view_size r1 r2
      reloc_count 0 s (fun j t _ hj =>
        relocate_reloc_local_indep P relocate prelocs view_address view_size r1 r2 j
          (reloc_at P j) t hrlc hv (hall j (by omega)))
    rw [reloc_at_zero] at h
    exact h
  · unfold scan_relocs
    rw [← hcount]
    have h := scan_relocs_loop_congr P A1 A2 A1.reloc_count 0 (fun j _ hj =>
      scan_reloc_global_indep P A1 A2 (reloc_at P j) hpre hlc hT hg (hall j (by omega)))
    rw [reloc_at_zero] at h
    exact h
  · unfold relocate_section
    have h := relocate_section_loop_congr P relocate prelocs view_address view_size r1 r2
      reloc_count 0 s (fun j t _ hj =>
        relocate_reloc_global_indep P relocate prelocs view_address view_size r1 r2 j
          (reloc_at P j) t hrlc hT hg (hall j (by omega)))
    rw [reloc_at_zero] at h
    exact h

/-- C11, witness: the two local records of `ex_relocs_locals` are scanned alike
with the global symbol array `ex_global_syms` and with an array of null
entries only; the three global records at the head of `ex_relocs_globals` are
relocated alike with the local values of `ex_relinfo` and with local values
that are all 7. -/
theorem local_global_separation_witness :
    scan_relocs ex_params
        ⟨ex_symtab, ex_included, ex_relocs_locals, 2, 2, some ex_local_syms, ex_global_syms⟩ =
      scan_relocs ex_params
        ⟨ex_symtab_target_undefined, ex_included, ex_relocs_locals, 2, 2, some ex_local_syms,
          fun _ => none⟩ ∧
    relocate_section ex_params ex_relinfo ex_relocate ex_relocs_globals 3 0x8000 16 [] =
      relocate_section ex_params ⟨ex_symtab, 2, fun _ => 7, ex_global_syms⟩ ex_relocate
        ex_relocs_globals 3 0x8000 16 [] :=
  have h := local_global_separation ex_params
    ⟨ex_symtab, ex_included, ex_relocs_locals, 2, 2, some ex_local_syms, ex_global_syms⟩
    ⟨ex_symtab_target_undefined, ex_included, ex_relocs_locals, 2, 2, some ex_local_syms,
      fun _ => none⟩
    ex_relinfo ⟨ex_symtab, 2, fun _ => 7, ex_global_syms⟩ ex_relocate ex_relocs_globals 3
    0x8000 16 [] rfl rfl rfl rfl
  ⟨h.1 (by decide) rfl rfl, h.2.2.2 (by decide) rfl rfl⟩

/-! ## Index safety -/

section access_lemmas

variable {σ Sym : Type} (P : Params)

/-- Every read of the scan was made by the pass of its own record, a record of
the range the loop walks. -/
theorem scan_relocs_accesses_loop_mem (A : Scan_args Sym) (n : Nat) :
    ∀ (i : Nat) (x : Nat × Access),
    x ∈ scan_relocs_accesses_loop P A n i (reloc_at P i) →
      (i ≤ x.1 ∧ x.1 < i + n) ∧ x.2 ∈ scan_reloc_accesses P A (reloc_at P x.1) := by
  induction n with
  | zero => intro i x hx; simp [scan_relocs_accesses_loop] at hx
  | succ n ih =>
    intro i x hx
    simp only [scan_relocs_accesses_loop, List.mem_append, List.mem_map] at hx
    rcases hx with ⟨a, ha, rfl⟩ | hx
    · exact ⟨⟨Nat.le_refl _, by omega⟩, ha⟩
    · cases hf : (scan_reloc P A (reloc_at P i)).failed with
      | some a => rw [hf] at hx; simp at hx
      | none =>
        rw [hf, reloc_at_succ] at hx
        have := ih (i + 1) x hx
        exact ⟨⟨by omega, by omega⟩, this.2⟩

/-- Every read of `relocate_section` was made by the pass of its own record, a
record of the range the loop walks. -/
theorem relocate_section_accesses_loop_mem (relinfo : Relocate_info Sym)
    (relocate : Relocate σ Sym) (prelocs : Mem) (view_address : Nat) (view_size : Int)
    (n : Nat) : ∀ (i : Nat) (s : σ) (x : Nat × Access),
    x ∈ relocate_section_accesses_loop P relinfo relocate prelocs view_address view_size n i
        (reloc_at P i) s →
      (i ≤ x.1 ∧ x.1 < i + n) ∧
        x.2 ∈ relocate_reloc_accesses P relinfo prelocs (reloc_at P x.1) := by
  induction n with
  | zero => intro i s x hx; simp [relocate_section_accesses_loop] at hx
  | succ n ih =>
    intro i s x hx
    simp only [relocate_section_accesses_loop, List.mem_append, List.mem_map] at hx
    rcases hx with ⟨a, ha, rfl⟩ | hx
    · exact ⟨⟨Nat.le_refl _, by omega⟩, ha⟩
    · cases hf : (relocate_reloc P relinfo relocate prelocs view_address view_size i
          (reloc_at P i) s).stop with
      | some a => rw [hf] at hx; simp at hx
      | none =>
        rw [hf, reloc_at_succ] at hx
        have := ih (i + 1) _ x hx
        exact ⟨⟨by omega, by omega⟩, this.2⟩

/-- The bytes of `st_shndx` lie inside the entry the view points to, and the
view of an entry below `local_count` lies inside the table, also when the
32-bit product has wrapped. -/
theorem lsym_read_in_table (size : elfcpp.Size) (r_sym local_count : Nat)
    (h : r_sym < local_count) :
    lsym_offset size r_sym + elfcpp.st_shndx_offset size + 2 ≤
      local_count * elfcpp.sym_size size := by
  have hmod : lsym_offset size r_sym ≤ r_sym * elfcpp.sym_size size := Nat.mod_le _ _
  have hmul : (r_sym + 1) * elfcpp.sym_size size ≤ local_count * elfcpp.sym_size size :=
    Nat.mul_le_mul_right _ h
  rw [Nat.succ_mul] at hmul
  cases size <;> simp only [elfcpp.st_shndx_offset, elfcpp.sym_size] at hmod hmul ⊢ <;> omega

/-- The reads of a pass of `scan_relocs` are in range when the symbol index of
the record is below `local_count + global_count`. -/
theorem scan_reloc_accesses_in_range (A : Scan_args Sym) (j global_count : Nat)
    (h : r_sym_at P A.prelocs j < A.local_count + global_count) :
    ∀ a ∈ scan_reloc_accesses P A (reloc_at P j),
      a.in_range (elfcpp.sym_size P.size) A.local_count global_count := by
  intro a ha
  unfold r_sym_at r_info_at at h
  unfold scan_reloc_accesses at ha
  by_cases hloc : elfcpp.elf_r_sym P.size
      (elfcpp.get_r_info P.size P.big_endian A.prelocs (reloc_at P j)) < A.local_count
  · simp only [hloc, if_true] at ha
    have hin := lsym_read_in_table P.size _ _ hloc
    cases hp : A.plocal_syms with
    | none => rw [hp] at ha; simp at ha
    | some syms =>
      rw [hp] at ha
      simp only [] at ha
      have hread : a = .local_sym
          (elfcpp.elf_r_sym P.size
            (elfcpp.get_r_info P.size P.big_endian A.prelocs (reloc_at P j)))
          (lsym_offset P.size (elfcpp.elf_r_sym P.size
            (elfcpp.get_r_info P.size P.big_endian A.prelocs (reloc_at P j))) +
              elfcpp.st_shndx_offset P.size)
          (lsym_offset P.size (elfcpp.elf_r_sym P.size
            (elfcpp.get_r_info P.size P.big_endian A.prelocs (reloc_at P j))) +
              elfcpp.st_shndx_offset P.size + 2) := by
        split at ha <;> simpa using ha
      rw [hread]
      exact ⟨hloc, by omega, hin⟩
  · simp only [hloc, if_false, List.mem_singleton] at ha
    rw [ha]
    unfold Access.in_range
    omega

/-- The reads of a pass of `relocate_section` are in range when the symbol
index of the record is below `local_count + global_count`. -/
theorem relocate_reloc_accesses_in_range (relinfo : Relocate_info Sym) (prelocs : Mem)
    (j global_count : Nat)
    (h : r_sym_at P prelocs j < relinfo.local_symbol_count + global_count) :
    ∀ a ∈ relocate_reloc_accesses P relinfo prelocs (reloc_at P j),
      a.in_range (elfcpp.sym_size P.size) relinfo.local_symbol_count global_count := by
  intro a ha
  unfold r_sym_at r_info_at at h
  unfold relocate_reloc_accesses at ha
  by_cases hloc : elfcpp.elf_r_sym P.size
      (elfcpp.get_r_info P.size P.big_endian prelocs (reloc_at P j)) <
        relinfo.local_symbol_count
  · simp only [hloc, if_true, List.mem_singleton] at ha
    rw [ha]
    exact hloc
  · simp only [hloc, if_false, List.mem_singleton] at ha
    rw [ha]
    unfold Access.in_range
    omega

end access_lemmas

/-- C17: if every record has `r_sym < local_count + global_count`, then every
read that `scan_relocs` and `relocate_section` make of the symbol arrays is in
range for a local symbol table and a local value array of `local_count`
entries and a global symbol array of `global_count` entries: a local read uses
an index `r_sym < local_count` (and the bytes read from the local symbol table
lie inside the table), a global read uses `r_sym - local_count`, which is not
negative and is below `global_count`. -/
theorem index_safety {σ Sym : Type} (P : Params) (A : Scan_args Sym)
    (relinfo : Relocate_info Sym) (relocate : Relocate σ Sym) (prelocs : Mem)
    (reloc_count view_address : Nat) (view_size : Int) (s : σ) (global_count : Nat)
    (hA : ∀ j, j < A.reloc_count → r_sym_at P A.prelocs j < A.local_count + global_count)
    (hR : ∀ j, j < reloc_count →
      r_sym_at P prelocs j < relinfo.local_symbol_count + global_count) :
    (∀ x ∈ scan_relocs_accesses P A,
      x.2.in_range (elfcpp.sym_size P.size) A.local_count global_count) ∧
    (∀ x ∈ relocate_section_accesses P relinfo relocate prelocs reloc_count view_address
        view_size s,
      x.2.in_range (elfcpp.sym_size P.size) relinfo.local_symbol_count global_count) := by
  constructor
  · intro x hx
    have h := scan_relocs_accesses_loop_mem P A A.reloc_count 0
    rw [reloc_at_zero] at h
    obtain ⟨⟨_, hlt⟩, hmem⟩ := h x hx
    exact scan_reloc_accesses_in_range P A x.1 global_count (hA x.1 (by omega)) x.2 hmem
  · intro x hx
    have h := relocate_section_accesses_loop_mem P relinfo relocate prelocs view_address
      view_size reloc_count 0 s
    rw [reloc_at_zero] at h
    obtain ⟨⟨_, hlt⟩, hmem⟩ := h x hx
    exact relocate_reloc_accesses_in_range P relinfo prelocs x.1 global_count
      (hR x.1 (by omega)) x.2 hmem

/-- C17, witness: the three records of `ex_relocs` have the symbol indices 0, 2
and 1, below 2 + 3; the reads of the scan and of the relocation are in range
for 2 local and 3 global symbols. -/
theorem index_safety_witness :
    scan_relocs_accesses ex_params ex_scan_args =
      [(0, .local_sym 0 14 16), (0, .local_sym 0 14 16), (1, .global_sym 0),
        (2, .local_sym 1 30 32), (2, .local_sym 1 30 32)] ∧
    (Access.global_sym 0).in_range (elfcpp.sym_size ex_params.size) 2 3 ∧
    (Access.local_value 1).in_range (elfcpp.sym_size ex_params.size) 2 3 :=
  have h := index_safety ex_params ex_scan_args ex_relinfo ex_relocate ex_relocs 3 0x8000 16 []
    3 (by decide) (by decide)
  ⟨by decide, h.1 (1, .global_sym 0) (by decide), h.2 (2, .local_value 1) (by decide)⟩

end gold
